import Mathlib

set_option maxHeartbeats 1000000

/-!
Shallow embedding of the ObjectsRepositoryServer core (src/services/mongo.ts,
the MongoDB-backed normalization/resolution/ownership layer) and proofs about
the claims on its behaviour.

JavaScript/JSON values are modelled by `JValue`; MongoDB BSON ObjectIds are
modelled as their canonical 24-character lowercase hex string wrapped in the
`oid` constructor.  Documents are association lists of fields (key order is
preserved, as in JS objects).  Collections are lists of documents; the whole
objects store is an association list from collection name to document list.
-/

inductive JValue where
  | null : JValue
  | bool : Bool → JValue
  | num : Int → JValue
  | str : String → JValue
  | oid : String → JValue
  | arr : List JValue → JValue
  | obj : List (String × JValue) → JValue

abbrev Fields := List (String × JValue)

/-- JavaScript truthiness on our value domain. -/
def jsTruthy : JValue → Bool
  | .null => false
  | .bool b => b
  | .num n => n != 0
  | .str s => s != ""
  | .oid _ => true
  | .arr _ => true
  | .obj _ => true

/-- First binding of a key in an association list (JS object property read). -/
def getF (fs : Fields) (k : String) : Option JValue :=
  match fs with
  | [] => none
  | (k2, v) :: rest => if k2 == k then some v else getF rest k

/-- JS property write: overwrite in place if present, append otherwise. -/
def setF (fs : Fields) (k : String) (v : JValue) : Fields :=
  match fs with
  | [] => [(k, v)]
  | (k2, v2) :: rest => if k2 == k then (k2, v) :: rest else (k2, v2) :: setF rest k v

/-- JS `delete obj[k]`. -/
def delF (fs : Fields) (k : String) : Fields :=
  fs.filter (fun kv => kv.1 != k)

/-- JS object spread `\x7b...a, ...b\x7d`: keys of `a` in order with `b`
overriding values, then the new keys of `b` in order. -/
def mergeF (a b : Fields) : Fields :=
  a.map (fun kv => (kv.1, ((getF b kv.1).getD kv.2))) ++
    b.filter (fun kv => (getF a kv.1).isNone)

def getFJ (v : JValue) (k : String) : Option JValue :=
  match v with
  | .obj fs => getF fs k
  | _ => none

def jfields : JValue → Fields
  | .obj fs => fs
  | _ => []

/-- Hexadecimal digit test, as accepted by `ObjectId.isValid`. -/
def isHexChar (c : Char) : Bool :=
  c.isDigit || ('a' ≤ c && c ≤ 'f') || ('A' ≤ c && c ≤ 'F')

/-- `ObjectId.isValid` on a string: 24 hex characters. -/
def isValidObjectId (s : String) : Bool :=
  s.length == 24 && s.data.all isHexChar

/-- `ObjectId.isValid` applied to an arbitrary JS value: true for ObjectId
instances and valid hex strings, false otherwise (undefined, numbers, ...). -/
def oidIsValidJ : Option JValue → Bool
  | some (.oid _) => true
  | some (.str s) => isValidObjectId s
  | _ => false

/-- ASCII lower-casing of a character (the only case change `toLowerCase`
performs on the hex identifiers and search terms of this domain). -/
def lowerChar (c : Char) : Char :=
  if 'A' ≤ c && c ≤ 'Z' then Char.ofNat (c.toNat + 32) else c

/-- JS `s.toLowerCase()`. -/
def jsToLower (s : String) : String := String.mk (s.data.map lowerChar)

/-- `new ObjectId(x).toString()` for a value accepted by `ObjectId.isValid`:
ObjectId instances keep their canonical form, hex strings are canonicalized
to lowercase. -/
def canonId : JValue → String
  | .oid s => s
  | .str s => jsToLower s
  | _ => ""

/-- JS `String(x)` / `x.toString()` on the value forms that occur in account
data and identifiers (scalars and ObjectIds). -/
def jsToString : JValue → String
  | .null => "null"
  | .bool b => if b then "true" else "false"
  | .num n => toString n
  | .str s => s
  | .oid s => s
  | .arr _ => ""
  | .obj _ => "[object Object]"

/-- Generic association-list read. -/
def aget {α : Type} (l : List (String × α)) (k : String) : Option α :=
  match l with
  | [] => none
  | (k2, v) :: rest => if k2 == k then some v else aget rest k

/-- Generic association-list write (overwrite or append). -/
def aset {α : Type} (l : List (String × α)) (k : String) (v : α) : List (String × α) :=
  match l with
  | [] => [(k, v)]
  | (k2, v2) :: rest => if k2 == k then (k2, v) :: rest else (k2, v2) :: aset rest k v

/-- The objects store: collection name to list of documents. -/
abbrev DB := List (String × List JValue)

def getColl (db : DB) (c : String) : List JValue := (aget db c).getD []

def setColl (db : DB) (c : String) (docs : List JValue) : DB := aset db c docs

/-- `_id` of a document when it is stored as a BSON ObjectId. -/
def docIdOid (d : JValue) : Option String :=
  match getFJ d "_id" with
  | some (.oid s) => some s
  | _ => none

/-- `collection.findOne(\x7b _id \x7d)` with an ObjectId query value: matches only
documents whose stored `_id` is the same BSON ObjectId. -/
def findOneByOid (docs : List JValue) (id : String) : Option JValue :=
  docs.find? (fun d => docIdOid d == some id)

/-- The `$or`-query used by `Mongo.resolve`: the stored `_id` may be the
ObjectId or its string form. -/
def findOneByEither (docs : List JValue) (id : String) : Option JValue :=
  docs.find? (fun d =>
    match getFJ d "_id" with
    | some (.oid s) => s == id
    | some (.str s) => s == id
    | _ => false)

/-- MongoDB `$set` of a field list onto a stored document. -/
def applySet (doc : JValue) (fields : Fields) : JValue :=
  match doc with
  | .obj fs => .obj (mergeF fs fields)
  | _ => doc

/-- `updateOne` on the first document matching the ObjectId `_id`. -/
def updFirst (docs : List JValue) (id : String) (fields : Fields) : List JValue :=
  match docs with
  | [] => []
  | d :: rest =>
    if docIdOid d == some id then applySet d fields :: rest
    else d :: updFirst rest id fields

/-- Substring occurrence on character lists (JS `indexOf(...) !== -1`). -/
def listContainsSub (hay pat : List Char) : Bool :=
  pat.isPrefixOf hay ||
    (match hay with
     | [] => false
     | _ :: t => listContainsSub t pat)

/-- JS `hay.indexOf(pat) !== -1`. -/
def strContains (hay pat : String) : Bool := listContainsSub hay.data pat.data

/-- JSON string quoting.  The values serialized in this development (hex
identifiers, account collection names) contain no characters that
`JSON.stringify` escapes, so plain quoting is faithful on this domain. -/
def quoteJSON (s : String) : String := "\"" ++ s ++ "\""

mutual
/-- `JSON.stringify`.  BSON ObjectIds serialize through their `toJSON` method
as their hex string. -/
def jsonStringify : JValue → String
  | .null => "null"
  | .bool b => if b then "true" else "false"
  | .num n => toString n
  | .str s => quoteJSON s
  | .oid s => quoteJSON s
  | .arr xs => "[" ++ jsonStringifyArr xs ++ "]"
  | .obj fs => "\x7b" ++ jsonStringifyObj fs ++ "\x7d"

def jsonStringifyArr : List JValue → String
  | [] => ""
  | [x] => jsonStringify x
  | x :: y :: rest => jsonStringify x ++ "," ++ jsonStringifyArr (y :: rest)

def jsonStringifyObj : List (String × JValue) → String
  | [] => ""
  | [(k, v)] => quoteJSON k ++ ":" ++ jsonStringify v
  | (k, v) :: kv :: rest =>
    quoteJSON k ++ ":" ++ jsonStringify v ++ "," ++ jsonStringifyObj (kv :: rest)
end

mutual
/-- The npm `flatten` package (deep flatten) applied to an array literal. -/
def flattenList : List JValue → List JValue
  | [] => []
  | v :: rest => flattenOne v ++ flattenList rest

def flattenOne : JValue → List JValue
  | .arr xs => flattenList xs
  | .null => [.null]
  | .bool b => [.bool b]
  | .num n => [.num n]
  | .str s => [.str s]
  | .oid s => [.oid s]
  | .obj fs => [.obj fs]
end

/-- JS `SameValueZero`, the equality used by `Set`: value equality on
primitives, reference identity on objects and arrays.  Distinct occurrences
of object values in our model stand for distinct references, so they never
compare equal. -/
def svz (a b : JValue) : Bool :=
  match a, b with
  | .null, .null => true
  | .bool x, .bool y => x == y
  | .num x, .num y => x == y
  | .str x, .str y => x == y
  | _, _ => false

/-- `Array.from(new Set(xs))`: keep the first occurrence of every element,
in order; `seen` holds the elements already kept. -/
def dedupAux (r : JValue → JValue → Bool) (seen : List JValue) :
    List JValue → List JValue
  | [] => []
  | x :: xs =>
    if seen.any (fun y => r y x) then dedupAux r seen xs
    else x :: dedupAux r (x :: seen) xs

def dedupJS (xs : List JValue) : List JValue := dedupAux svz [] xs

/-- Pairwise distinctness with respect to an equivalence test. -/
def nodupBy (r : JValue → JValue → Bool) : List JValue → Bool
  | [] => true
  | x :: xs => xs.all (fun y => !(r x y)) && nodupBy r xs

/-!
## The normalizer `addAndGetId` of `Mongo.submit`

`submit` closes over `resultObject._id` and `currentPhyObjId`; they are passed
here explicitly.  MongoDB's fresh `new ObjectId()` values are modelled by an
explicit supply of identifier strings threaded through the state.
-/

structure St where
  db : DB
  supply : List String

/-- `new ObjectId()`: take the next identifier from the supply. -/
def popFresh (st : St) : String × St :=
  match st.supply with
  | [] => ("ffffffffffffffffffffffff", st)
  | s :: rest => (s, { st with db := st.db, supply := rest })

/-- `_digId`: `((currentPhyObjId !== '') ? currentPhyObjId : resultObject._id).toString()`. -/
def digIdOf (currentPhyObjId resultObjectId : String) : String :=
  if currentPhyObjId != "" then currentPhyObjId else resultObjectId

/-- Read `field['roles'][digId]` (only meaningful when `roles` is an object;
a primitive `roles` value would make the source throw on property write). -/
def rolesGetEntry (fs : Fields) (digId : String) : Option JValue :=
  match getF fs "roles" with
  | some (.obj rfs) => getF rfs digId
  | _ => none

/-- Write `field['roles'][digId] = v`. -/
def rolesSetEntry (fs : Fields) (digId : String) (v : JValue) : Fields :=
  match getF fs "roles" with
  | some (.obj rfs) => setF fs "roles" (.obj (setF rfs digId v))
  | _ => fs

/-- One iteration of the `for (const prop of ['institution_role', 'person_role'])`
loop in `addAndGetId`. -/
def handleRoleProp (doRolesExist : Bool) (digId : String) (new_roles : Option JValue)
    (fs : Fields) (prop : String) : Fields :=
  match getF fs prop with
  | none => fs
  | some pv =>
    if !(jsTruthy pv) then fs
    else
      let pv2 := match new_roles with
        | some nr => if jsTruthy nr then nr else pv
        | none => pv
      let fs1 := setF fs prop pv2
      let rcur := (rolesGetEntry fs1 digId).getD (.arr [])
      let merged := if doRolesExist then flattenList [rcur, pv2] else flattenList [pv2]
      let fs2 := rolesSetEntry fs1 digId (.arr (dedupJS merged))
      setF fs2 prop (.arr [])

/-- The person/institution role-merging block of `addAndGetId`. -/
def roleStep (add_to_coll digId : String) (new_roles : Option JValue)
    (fs : Fields) : Fields :=
  if add_to_coll == "person" || add_to_coll == "institution" then
    let doRolesExist := (getF fs "roles").isSome
    let fs1 := if doRolesExist then fs else setF fs "roles" (.obj [])
    let fs2 := rolesSetEntry fs1 digId
      (match rolesGetEntry fs1 digId with
       | some c => if jsTruthy c then c else .arr []
       | none => .arr [])
    let fs3 := handleRoleProp doRolesExist digId new_roles fs2 "institution_role"
    handleRoleProp doRolesExist digId new_roles fs3 "person_role"
  else fs

/-- The "Make sure there are no null roles" filter of `addAndGetId`.  The
source calls `.filter` on `field['roles'][digId]`; a truthy non-array entry
would throw there, so only array entries are filtered. -/
def rolesFilterStep (digId : String) (fs : Fields) : Fields :=
  match getF fs "roles" with
  | some r =>
    if jsTruthy r then
      match rolesGetEntry fs digId with
      | some (.arr xs) =>
        if jsTruthy (.arr xs) then rolesSetEntry fs digId (.arr (xs.filter jsTruthy))
        else fs
      | _ => fs
    else fs
  | none => fs

/-- The tail of the `addAndGetId` body after the find-and-merge phase: the
role block, the null-role filter, and the `delete field['_id']`. -/
def normalizeFields (add_to_coll digId : String) (new_roles : Option JValue)
    (f1 : Fields) : Fields :=
  delF (rolesFilterStep digId (roleStep add_to_coll digId new_roles f1)) "_id"

/-- `addAndGetId` without the nested-institution preprocessing (the body that
runs for every collection). -/
def addAndGetIdCore (st : St) (in_field : JValue) (add_to_coll : String)
    (new_roles : Option JValue) (currentPhyObjId resultObjectId : String) :
    JValue × St :=
  let digId := digIdOf currentPhyObjId resultObjectId
  let isIdValid := oidIsValidJ (getFJ in_field "_id")
  let (theId, st1) :=
    if isIdValid then (canonId ((getFJ in_field "_id").getD .null), st)
    else popFresh st
  let f1 : Fields :=
    if isIdValid then
      match findOneByOid (getColl st1.db add_to_coll) theId with
      | some fr => mergeF (jfields fr) (jfields in_field)
      | none => jfields in_field
    else jfields in_field
  let f4 := normalizeFields add_to_coll digId new_roles f1
  let docs := getColl st1.db add_to_coll
  let newDocs :=
    if (findOneByOid docs theId).isSome then updFirst docs theId f4
    else docs ++ [.obj (mergeF [("_id", .oid theId)] f4)]
  (.obj [("_id", .oid theId)],
   { db := setColl st1.db add_to_coll newDocs, supply := st1.supply })

/-- The loop body of `addNestedInstitution`, iterating `person_institution`
(`pis`) and `person_institution_data` (`pdata`) in parallel.  The source
would throw if a sentinel entry had no data at the same index; that part of
the domain is not modelled. -/
def substNestedGo (cphy rid : String) :
    List JValue → List JValue → St → List JValue × St
  | _, [], st => ([], st)
  | [], pdata, st => (pdata, st)
  | pi :: pis, pd :: pdata, st =>
    if (match getFJ pi "value" with
        | some (.str s) => s == "add_new_institution"
        | _ => false) then
      let (newInst, st1) := addAndGetIdCore st pd "institution" none cphy rid
      let (rest, st2) := substNestedGo cphy rid pis pdata st1
      (newInst :: rest, st2)
    else
      let (rest, st1) := substNestedGo cphy rid pis pdata st
      (pd :: rest, st1)

/-- `addNestedInstitution`: replaces every `person_institution_data` entry
whose companion `person_institution` entry is the `add_new_institution`
sentinel by the reference returned from normalizing that institution. -/
def addNestedInstitution (st : St) (person : JValue) (cphy rid : String) :
    JValue × St :=
  match getFJ person "person_institution" with
  | some (.arr pis) =>
    (match getFJ person "person_institution_data" with
     | some (.arr pdata) =>
       let (pdata2, st1) := substNestedGo cphy rid pis pdata st
       (.obj (setF (jfields person) "person_institution_data" (.arr pdata2)), st1)
     | _ => (person, st))
  | _ => (person, st)

/-- `addAndGetId` of `Mongo.submit`: persist an inline entity payload in its
collection and return its bare reference. -/
def addAndGetId (st : St) (in_field : JValue) (add_to_coll : String)
    (new_roles : Option JValue) (currentPhyObjId resultObjectId : String) :
    JValue × St :=
  let (field, st1) :=
    if add_to_coll == "person" then addNestedInstitution st in_field currentPhyObjId resultObjectId
    else (in_field, st)
  addAndGetIdCore st1 field add_to_coll new_roles currentPhyObjId resultObjectId

/-!
## `concatFix` — the final reconciliation merge of `Mongo.submit`
-/

/-- `filterObjectsWithoutID`: `ObjectId.isValid(obj._id)`. -/
def filterObjectsWithoutID (v : JValue) : Bool := oidIsValidJ (getFJ v "_id")

/-- The identifier string of a reconciliation entry:
`new ObjectId(res._id).toString()`. -/
def idOfDoc (d : JValue) : String := canonId ((getFJ d "_id").getD .null)

/-- A bare reference `\x7b _id \x7d`. -/
def mkRef (i : String) : JValue := .obj [("_id", .oid i)]

/-- The dedup loop of `concatFix`: push the bare reference
`\x7b _id: new ObjectId(res._id) \x7d` unless an entry with the same id string
is already in `final` (the source compares `_id.toString()` of the entries). -/
def concatFixLoop : List JValue → List JValue → List JValue
  | [], final => final
  | res :: rest, final =>
    if (final.filter (fun o => idOfDoc o == idOfDoc res)).length == 0 then
      concatFixLoop rest (final ++ [mkRef (idOfDoc res)])
    else concatFixLoop rest final

/-- `concatFix(...arr)` of `Mongo.submit`: concatenate, drop entries without a
valid identifier, and deduplicate by identifier keeping first occurrences. -/
def concatFix (arrs : List (List JValue)) : List JValue :=
  concatFixLoop (arrs.flatten.filter filterObjectsWithoutID) []

/-!
## Typeguards and resolving strategies

`typeguards.ts` and `resolving-strategies.ts` are imported by `mongo.ts` but
are not part of the sources; they are modelled from the spec.
-/

/-- Modelled from the spec: `isDigitalObject` of the missing `typeguards.ts`.
Per §4.3 dispatch is "determined by required-field presence, not by a stored
type tag"; a DigitalObject is recognized by its `digobj_title` metadata field
(every `IMetaDataDigitalObject` in the source carries the `digobj_*` fields). -/
def isDigitalObjectJ (v : JValue) : Bool := (getFJ v "digobj_title").isSome

/-- Modelled from the spec: `isModel` of the missing `typeguards.ts`; a Model
is recognized by the presence of its required `relatedDigitalObject` field. -/
def isModelJ (v : JValue) : Bool := (getFJ v "relatedDigitalObject").isSome

/-- Modelled from the spec: `isCompilation` of the missing `typeguards.ts`; a
Compilation is recognized by the presence of its required `models` field. -/
def isCompilationJ (v : JValue) : Bool := (getFJ v "models").isSome

/-- The identifier-parsing and `findOne` part of `Mongo.resolve`:
`parsedId = (obj['_id']) ? obj['_id'] : obj`, validity check, then
`findOne(\x7b $or: [\x7b _id \x7d, \x7b _id: _id.toString() \x7d] \x7d)`.
`none` covers both the `undefined` early returns and a `null` find result. -/
def resolveRefRaw (db : DB) (coll : String) (v : JValue) : Option JValue :=
  if !(jsTruthy v) then none
  else
    let parsedId := match getFJ v "_id" with
      | some idv => if jsTruthy idv then idv else v
      | none => v
    if !(oidIsValidJ (some parsedId)) then none
    else findOneByEither (getColl db coll) (canonId parsedId)

/-- Modelled from the spec: `resolveDigitalObject` of the missing
`resolving-strategies.ts`.  §4.3: "DigitalObject: returned as-is (leaf for
this pipeline)". -/
def resolveDigitalObject (d : JValue) : JValue := d

/-- Modelled from the spec: `resolveModel` of the missing
`resolving-strategies.ts`.  §4.3: "Model: its `relatedDigitalObject`
reference is expanded one level via the DigitalObject rule". -/
def resolveModel (db : DB) (m : JValue) : JValue :=
  match getFJ m "relatedDigitalObject" with
  | some r =>
    .obj (setF (jfields m) "relatedDigitalObject"
      (match resolveRefRaw db "digitalobject" r with
       | some dobj => resolveDigitalObject dobj
       | none => .null))
  | none => m

/-- Modelled from the spec: `resolveCompilation` of the missing
`resolving-strategies.ts`.  §4.3: "Compilation: every entry in `models` is
expanded via the Model rule, in array order". -/
def resolveCompilation (db : DB) (c : JValue) : JValue :=
  match getFJ c "models" with
  | some (.arr ms) =>
    .obj (setF (jfields c) "models"
      (.arr (ms.map (fun r =>
        match resolveRefRaw db "model" r with
        | some mdoc => resolveModel db mdoc
        | none => .null))))
  | _ => c

/-- The depth check of `Mongo.resolve`, exactly as written in the source:
`if (depth && depth === 0) return resolve_result;` — the truthiness test
(`depth`) conjoined with the equality test (`depth === 0`). -/
def depthGuard (depth : Option Nat) : Bool :=
  (match depth with
   | none => false
   | some d => d != 0) && depth == some 0

/-- `Mongo.resolve(obj, collection_name, depth?)`: find the stored document
and dispatch on its shape. -/
def resolve (db : DB) (obj : JValue) (coll : String) (depth : Option Nat) :
    Option JValue :=
  match resolveRefRaw db coll obj with
  | none => none
  | some d =>
    if depthGuard depth then some d
    else if isDigitalObjectJ d then some (resolveDigitalObject d)
    else if isModelJ d then some (resolveModel db d)
    else if isCompilationJ d then some (resolveCompilation db d)
    else some d

/-!
## `Mongo.getObjectFromCollection` — single-object read with compilation gating
-/

inductive ReadResult where
  | notFound
  | protectedMarker
  | fullBody (body : JValue)

/-- The length JS reads off `_pw` in `_pw.length > 0` (undefined for values
without a `length` property, which makes the comparison false). -/
def jsLength : JValue → Option Nat
  | .str s => some s.length
  | .arr xs => some xs.length
  | _ => none

/-- The compilation-gating part of `Mongo.getObjectFromCollection`, applied to
the already-resolved object.  `isOwner` is the result of the
`isUserOwnerOfObject` call; `passwordParam` is `request.params.password`. -/
def getObjectFromCollection (object : Option JValue) (isOwner : Bool)
    (passwordParam : Option String) : ReadResult :=
  let password := match passwordParam with
    | some p => if p != "" then p else ""
    | none => ""
  match object with
  | none => .notFound
  | some o =>
    if isCompilationJ o then
      let pw := getFJ o "password"
      let isPasswordProtected := match pw with
        | some v => jsTruthy v && (match jsLength v with
            | some n => decide (0 < n)
            | none => false)
        | none => false
      let isPasswordCorrect := match pw with
        | some v => jsTruthy v && (match v with
            | .str s => s == password
            | _ => false)
        | none => false
      if !isPasswordProtected || isOwner || isPasswordCorrect then .fullBody o
      else .protectedMarker
    else .fullBody o

/-!
## `Mongo.getAllObjectsFromCollection` — fetch-all with password filtering
-/

/-- The `isPasswordProtected` predicate of `getAllObjectsFromCollection`
(despite the name it KEEPS unprotected compilations):
`!compilation.password || (compilation.password && compilation.password.length === 0)`. -/
def passwordFreeJS (c : JValue) : Bool :=
  match getFJ c "password" with
  | none => true
  | some v =>
    !(jsTruthy v) || (jsTruthy v && (match jsLength v with
      | some n => n == 0
      | none => false))

/-- `Mongo.getAllObjectsFromCollection`: resolve every stored document, drop
falsy results, and if the first result is a compilation keep only the
password-free ones. -/
def getAllObjectsFromCollection (db : DB) (coll : String) : List JValue :=
  let results := ((getColl db coll).map (fun d => resolve db d coll none)).filterMap id
  let results := results.filter jsTruthy
  match results with
  | [] => results
  | r0 :: _ => if isCompilationJ r0 then results.filter passwordFreeJS else results

/-!
## `Mongo.isUserOwnerOfObject` — the serialized-containment ownership test
-/

/-- `Mongo.isUserOwnerOfObject`.  `userData` is the account found by session
(`null` when there is none); the result is
`JSON.stringify(userData ? userData.data : '').indexOf(_id) !== -1`.
`none` models the TypeError raised when the account exists but has no `data`
field (`JSON.stringify(undefined)` is `undefined`). -/
def isUserOwnerOfObject (userData : Option JValue) (identifier : String) :
    Option Bool :=
  let idStr := if isValidObjectId identifier then jsToLower identifier else identifier
  match userData with
  | none => some (strContains (jsonStringify (.str "")) idStr)
  | some u =>
    match getFJ u "data" with
    | some d => some (strContains (jsonStringify d) idStr)
    | none => none

/-!
## `Mongo.insertCurrentUserData` — attach a reference to the session account
-/

/-- An account's `data` map: collection name to list of stored references. -/
abbrev AccData := List (String × List JValue)

/-- `Mongo.insertCurrentUserData`.  Returns the success flag and the account
`data` as persisted afterwards (`none` when no account was found). -/
def insertCurrentUserData (userData : Option AccData) (identifier : JValue)
    (collection : String) : Bool × Option AccData :=
  match userData with
  | none => (false, none)
  | some dt =>
    if !(oidIsValidJ (some identifier)) then (false, some dt)
    else
      let entries := (aget dt collection).getD []
      let doesExist := (entries.filter jsTruthy).any
        (fun e => jsToString e == jsToString identifier)
      if doesExist then (true, some dt)
      else (true, some (aset dt collection (entries ++ [JValue.oid (canonId identifier)])))

/-!
## `Mongo.removeObjectFromCollection` — gated delete
-/

structure Account where
  username : Option String
  data : AccData

inductive DelResult where
  /-- the "Input username does not match username with current sessionID" error -/
  | errNoMatchUser
  /-- the "Object ... does not belong to account" error -/
  | errNotOwned
  /-- `data[RequestCollection]` was undefined: the source throws on `.filter` -/
  | crash
  /-- collection documents and account data after a successful delete -/
  | ok (newDocs : List JValue) (newData : AccData)

/-- JS strict equality between a data entry and the identifier string
(`id !== identifier.toString()` is its negation): an ObjectId entry is an
object and never strictly equals a string. -/
def strictEqToString (e : JValue) (s : String) : Bool :=
  match e with
  | .str s2 => s2 == s
  | _ => false

/-- `deleteOne(\x7b _id: identifier \x7d)` where the identifier is the parsed
ObjectId (or the raw string when invalid). -/
def idFieldMatches (d : JValue) (ident : JValue) : Bool :=
  match getFJ d "_id", ident with
  | some (.oid a), .oid b => a == b
  | some (.str a), .str b => a == b
  | _, _ => false

def deleteFirst (docs : List JValue) (ident : JValue) : List JValue :=
  match docs with
  | [] => []
  | d :: rest => if idFieldMatches d ident then rest else d :: deleteFirst rest ident

/-- `Mongo.removeObjectFromCollection`.  `docs` are the documents of the
requested collection, `account` the session's account, `bodyUsername` the
username declared in the request body. -/
def removeObjectFromCollection (docs : List JValue) (account : Option Account)
    (bodyUsername : Option String) (paramsIdentifier : String) (coll : String) :
    DelResult :=
  let identifier : JValue :=
    if isValidObjectId paramsIdentifier then .oid (jsToLower paramsIdentifier)
    else .str paramsIdentifier
  match account with
  | none => .errNoMatchUser
  | some acc =>
    let unameOk := match acc.username, bodyUsername with
      | some au, some bu => au != "" && bu != "" && bu == au
      | _, _ => false
    if !unameOk then .errNoMatchUser
    else
      let userRelated := ((acc.data.map Prod.snd).flatten).map jsToString
      let idString := jsToString identifier
      if !(userRelated.any (fun s => s == idString)) then .errNotOwned
      else
        let newDocs := deleteFirst docs identifier
        match aget acc.data coll with
        | none => .crash
        | some entries =>
          let entries2 := entries.filter (fun e => !(strictEqToString e idString))
          .ok newDocs (aset acc.data coll entries2)

/-!
## `Mongo.searchObjectWithFilter` — filtered full-text search
-/

mutual
/-- `getNestedValues(obj)` of `searchObjectWithFilter`, iterating
`Object.keys(obj)`.  For a string, `Object.keys` enumerates the character
indices, so its characters are pushed one by one; numbers and booleans have
no enumerable keys; `Object.keys(null)` throws, modelled by `none`; a BSON
ObjectId only exposes its byte buffer, which contributes no strings. -/
def gnv : JValue → Option (List String)
  | .null => none
  | .bool _ => some []
  | .num _ => some []
  | .str s => some (s.data.map (fun c => String.mk [c]))
  | .oid _ => some []
  | .arr xs => gnvVals xs
  | .obj fs => gnvFieldList fs

def gnvFieldList : List (String × JValue) → Option (List String)
  | [] => some []
  | (_, v) :: rest =>
    match gnvField v, gnvFieldList rest with
    | some a, some b => some (a ++ b)
    | _, _ => none

def gnvVals : List JValue → Option (List String)
  | [] => some []
  | v :: rest =>
    match gnvField v, gnvVals rest with
    | some a, some b => some (a ++ b)
    | _, _ => none

/-- The body of the key loop: skip falsy properties, recurse into objects,
iterate arrays elementwise (without a truthiness guard on the elements),
push strings. -/
def gnvField (prop : JValue) : Option (List String) :=
  if !(jsTruthy prop) then some []
  else match prop with
    | .obj fs => gnvFieldList fs
    | .oid _ => some []
    | .arr elems => gnvElems elems
    | .str s => some [s]
    | .null => some []
    | .bool _ => some []
    | .num _ => some []

def gnvElems : List JValue → Option (List String)
  | [] => some []
  | p :: rest =>
    match gnv p, gnvElems rest with
    | some a, some b => some (a ++ b)
    | _, _ => none
end

/-- `asText`: `getNestedValues(obj).join('').toLowerCase()`. -/
def textOfDoc (d : JValue) : Option String :=
  (gnv d).map (fun l => jsToLower (String.join l))

/-- The inner `for (let j = 0; ...)` loop of `filterResults`: breaks at the
first non-matching term, pushes only when the last term was reached and
matched (so an empty filter list never pushes). -/
def loopMatch (asText : String) : List String → Bool
  | [] => false
  | [t] => strContains asText t
  | t :: t2 :: rest =>
    strContains asText t && loopMatch asText (t2 :: rest)

/-- `filterResults(objs)`: collect `obj._id` of every matching document.
`none` propagates the `getNestedValues` TypeError. -/
def filterResults (filt : List String) : List JValue → Option (List JValue)
  | [] => some []
  | d :: rest =>
    match textOfDoc d, filterResults filt rest with
    | some t, some others =>
      some (if loopMatch t filt then ((getFJ d "_id").getD .null) :: others else others)
    | _, _ => none

/-- `Mongo.searchObjectWithFilter` on the collections without special
pre-processing (every collection except `model`, whose branch pre-filters
and augments the documents; the `digitalobject` branch discards the resolved
values and leaves the searched array unchanged).  `filterParam` is
`request.body.filter`; when absent the filter defaults to `['']`. -/
def searchObjectWithFilter (docs : List JValue) (filterParam : Option (List String)) :
    Option (List JValue) :=
  let filt := match filterParam with
    | some l => l.map jsToLower
    | none => [""]
  filterResults filt docs

mutual
/-- The claim's reading of the searched text: all nested string fields,
recursing into object-valued fields and arrays of objects, with arrays of
scalars NOT included.  Stated from the claim's words, for comparison with
the source-derived `gnv`. -/
def specFieldVals : List (String × JValue) → List String
  | [] => []
  | (_, v) :: rest => specFieldVal v ++ specFieldVals rest

def specFieldVal : JValue → List String
  | .str s => [s]
  | .obj fs => specFieldVals fs
  | .arr xs => specArrElems xs
  | .null => []
  | .bool _ => []
  | .num _ => []
  | .oid _ => []

def specArrElems : List JValue → List String
  | [] => []
  | .obj fs :: rest => specFieldVals fs ++ specArrElems rest
  | .null :: rest => specArrElems rest
  | .bool _ :: rest => specArrElems rest
  | .num _ :: rest => specArrElems rest
  | .str _ :: rest => specArrElems rest
  | .oid _ :: rest => specArrElems rest
  | .arr xs :: rest => specArrElems xs ++ specArrElems rest
end

/-- The search semantics stated by the claim: identifiers of the documents
whose flattened string-field text (per `specFieldVal`) contains every
lower-cased filter term. -/
def specSearch (docs : List JValue) (filt : List String) : List JValue :=
  (docs.filter (fun d =>
    filt.all (fun t =>
      strContains (jsToLower (String.join (specFieldVals (jfields d)))) (jsToLower t)))).map
    (fun d => (getFJ d "_id").getD .null)

/-!
## Auxiliary and spec-side definitions used by the theorems
-/

/-- First-occurrence deduplication of a string list, with an accumulator of
already-kept entries.  Stated from the claim's words ("deduplicated by
identifier with first occurrence order preserved") for comparison with the
source-derived `concatFix`. -/
def dedupStrAux (seen : List String) : List String → List String
  | [] => []
  | s :: rest =>
    if seen.contains s then dedupStrAux seen rest
    else s :: dedupStrAux (s :: seen) rest

/-- The claim's merge semantics: concatenate, drop entries without a valid
identifier, deduplicate by identifier keeping first occurrences. -/
def specDedupMergeIds (arrs : List (List JValue)) : List String :=
  dedupStrAux [] ((arrs.flatten.filter filterObjectsWithoutID).map idOfDoc)

/-- Entry is a BSON ObjectId or a plain string (the forms taken by account
data entries and identifiers; `jsToString` is exact on these). -/
def isOidOrStr : JValue → Bool
  | .oid _ => true
  | .str _ => true
  | _ => false

/-- The claim's wording for C10: the password field is absent or the empty
string. -/
def passwordAbsentOrEmpty (c : JValue) : Bool :=
  match getFJ c "password" with
  | none => true
  | some (.str s) => s == ""
  | some _ => false

/-!
## Concrete fixtures
-/

/-- C2 counterexample owner id (`resultObject._id`). -/
def O1C2 : String := "cccccccccccccccccccccccc"

/-- C2 scenario second owner id. -/
def O2C2 : String := "eeeeeeeeeeeeeeeeeeeeeeee"

/-- C2 counterexample payload: an explicit `roles` map with a duplicated
entry and no role-bearing field. -/
def payloadC2 : JValue :=
  .obj [("roles", .obj [(O1C2, .arr [.str "A", .str "A"])])]

def st0C2 : St := { db := [], supply := ["dddddddddddddddddddddddd"] }

/-- C2 scenario: the person's identifier once minted. -/
def pIdC2 : String := "abcdefabcdefabcdefabcdef"

def payloadS1 : JValue :=
  .obj [("name", .str "P"), ("person_role", .arr [.str "A"])]

def payloadS2 : JValue :=
  .obj [("_id", .str pIdC2), ("person_role", .arr [.str "B"])]

def payloadS3 : JValue :=
  .obj [("_id", .str pIdC2), ("person_role", .arr [.str "A"])]

def stS0 : St := { db := [], supply := [pIdC2] }

def stS1 : St := (addAndGetId stS0 payloadS1 "person" none "" O1C2).2

def stS2 : St := (addAndGetId stS1 payloadS2 "person" none "" O2C2).2

def stS3 : St := (addAndGetId stS2 payloadS3 "person" none "" O1C2).2

/-- C3 witness: identifier of the existing person. -/
def pidC3 : String := "123456789012345678901234"

def oldC3 : JValue :=
  .obj [("_id", .oid pidC3), ("prename", .str "Old"), ("surname", .str "S")]

def stC3 : St := { db := [("person", [oldC3])], supply := ["99999999999999999999999a"] }

def payloadC3 : JValue := .obj [("_id", .str pidC3), ("prename", .str "New")]

/-- C4 example entries (valid 24-hex identifiers standing for ids 1, 2, 3). -/
def id1C4 : String := "000000000000000000000001"
def id2C4 : String := "000000000000000000000002"
def id3C4 : String := "000000000000000000000003"

def dC4a : JValue := .obj [("_id", .oid id1C4), ("x", .str "p")]
def dC4b : JValue := .obj [("_id", .oid id2C4), ("x", .str "q")]
def dC4c : JValue := .obj [("_id", .oid id3C4), ("x", .str "r")]

/-- C5 witness compilation, password `"x"`. -/
def compC5 : JValue :=
  .obj [("_id", .oid "aaaabbbbccccddddeeee0005"), ("models", .arr []),
        ("password", .str "x")]

/-- C6 fixtures: a compilation owned by account `u`. -/
def delIdC6 : String := "abcabcabcabcabcabcabcabc"

def docC6 : JValue := .obj [("_id", .oid delIdC6), ("name", .str "C")]

def accC6 : Account :=
  { username := some "u", data := [("compilation", [.oid delIdC6])] }

/-- C7 witness account: owns one model. -/
def ownIdC7 : String := "ababababababababababab01"

def accC7 : JValue :=
  .obj [("username", .str "u"),
        ("data", .obj [("model", .arr [.oid ownIdC7])])]

/-- C8 counterexample: a valid identifier written in uppercase hex. -/
def upIdC8 : String := "ABCDEFABCDEFABCDEFABCDEF"

def dataC8 : AccData := [("model", [])]

/-- C9 counterexample document: an array of scalar strings. -/
def docC9 : JValue :=
  .obj [("_id", .oid "111111111111111111111111"),
        ("digobj_tags", .arr [.str "foo"])]

/-- C10 fixtures: one open and one password-protected compilation. -/
def compOpen : JValue :=
  .obj [("_id", .oid "aaaa0000aaaa0000aaaa0001"), ("models", .arr []),
        ("name", .str "open")]

def compProt : JValue :=
  .obj [("_id", .oid "aaaa0000aaaa0000aaaa0002"), ("models", .arr []),
        ("password", .str "x")]

def dbC10 : DB := [("compilation", [compOpen, compProt])]

/-!
## Theorems

Claim C1 — the resolver depth contract.
-/

/-- A stored DigitalObject. -/
def dObjC1 : JValue :=
  .obj [("_id", .oid "aaaaaaaaaaaaaaaaaaaaaaaa"), ("digobj_title", .str "T")]

/-- A stored Model whose `relatedDigitalObject` is a bare reference. -/
def modelC1raw : JValue :=
  .obj [("_id", .oid "bbbbbbbbbbbbbbbbbbbbbbbb"),
        ("relatedDigitalObject", .obj [("_id", .oid "aaaaaaaaaaaaaaaaaaaaaaaa")]),
        ("name", .str "N")]

def dbC1 : DB := [("digitalobject", [dObjC1]), ("model", [modelC1raw])]

/-- The Model with `relatedDigitalObject` expanded to the full DigitalObject. -/
def modelC1expanded : JValue :=
  .obj [("_id", .oid "bbbbbbbbbbbbbbbbbbbbbbbb"),
        ("relatedDigitalObject", dObjC1),
        ("name", .str "N")]

/-- C1: the claim says `resolve(ref, 'model', 0)` returns the stored Model
unexpanded.  In the source the recursion breaker reads
`if (depth && depth === 0) return resolve_result;`, and `0` is falsy, so the
guard can never fire: `resolve` with depth `0` expands `relatedDigitalObject`
exactly like the default-depth call, and the depth-0 result is not the bare
stored reference (its `relatedDigitalObject` satisfies the DigitalObject
shape test, which the stored bare reference does not). -/
theorem C1_resolve_depth_zero_still_expands :
    (∀ depth : Option Nat, depthGuard depth = false) ∧
    resolve dbC1 (.oid "bbbbbbbbbbbbbbbbbbbbbbbb") "model" (some 0) = some modelC1expanded ∧
    resolve dbC1 (.oid "bbbbbbbbbbbbbbbbbbbbbbbb") "model" none = some modelC1expanded ∧
    isDigitalObjectJ ((getFJ modelC1expanded "relatedDigitalObject").getD .null) = true ∧
    isDigitalObjectJ ((getFJ modelC1raw "relatedDigitalObject").getD .null) = false := by
  refine ⟨?_, rfl, rfl, rfl, rfl⟩
  intro depth
  cases depth with
  | none => rfl
  | some n =>
    cases n with
    | zero => rfl
    | succ m => rfl

/-!
## Helper lemmas about association lists
-/

theorem getF_setF_eq (fs : Fields) (k : String) (v : JValue) :
    getF (setF fs k v) k = some v := by
  induction fs with
  | nil => simp [setF, getF]
  | cons kv rest ih =>
    by_cases h : kv.1 = k
    · simp [setF, getF, h]
    · simp only [setF]
      rw [show (kv.1 == k) = false by simpa using h]
      simpa [getF, h] using ih

theorem getF_setF_ne (fs : Fields) (k k2 : String) (v : JValue) (h : k2 ≠ k) :
    getF (setF fs k v) k2 = getF fs k2 := by
  induction fs with
  | nil =>
    simp [setF, getF, show (k == k2) = false by
      simpa using fun hh : k = k2 => h hh.symm]
  | cons kv rest ih =>
    by_cases hk : kv.1 = k
    · simp only [setF]
      rw [show (kv.1 == k) = true by simpa using hk]
      by_cases hk2 : kv.1 = k2
      · exact absurd (hk ▸ hk2.symm ▸ rfl) h
      · simp [getF, hk2]
    · simp only [setF]
      rw [show (kv.1 == k) = false by simpa using hk]
      by_cases hk2 : kv.1 = k2
      · simp [getF, hk2]
      · simp [getF, hk2, ih]

theorem getF_delF_ne (fs : Fields) (k k2 : String) (h : k2 ≠ k) :
    getF (delF fs k) k2 = getF fs k2 := by
  induction fs with
  | nil => simp [delF, getF]
  | cons kv rest ih =>
    by_cases hk : kv.1 = k
    · rw [show delF (kv :: rest) k = delF rest k by
        simp [delF, List.filter_cons, hk]]
      rw [show getF (kv :: rest) k2 = getF rest k2 by
        simp [getF, show kv.1 ≠ k2 from fun hh => h (hh ▸ hk ▸ rfl)]]
      exact ih
    · rw [show delF (kv :: rest) k = kv :: delF rest k by
        simp [delF, List.filter_cons, bne_iff_ne, hk]]
      by_cases hk2 : kv.1 = k2
      · simp [getF, hk2]
      · simp [getF, hk2, ih]

theorem getF_delF_eq (fs : Fields) (k : String) : getF (delF fs k) k = none := by
  induction fs with
  | nil => simp [delF, getF]
  | cons kv rest ih =>
    by_cases hk : kv.1 = k
    · rw [show delF (kv :: rest) k = delF rest k by
        simp [delF, List.filter_cons, hk]]
      exact ih
    · rw [show delF (kv :: rest) k = kv :: delF rest k by
        simp [delF, List.filter_cons, bne_iff_ne, hk]]
      simp [getF, hk, ih]

theorem getF_append (a b : Fields) (k : String) :
    getF (a ++ b) k = (getF a k).orElse (fun _ => getF b k) := by
  induction a with
  | nil => simp [getF]
  | cons kv rest ih =>
    by_cases h : kv.1 = k
    · simp [getF, h]
    · simp [getF, h, ih]

theorem getF_mergeF (a b : Fields) (k : String) :
    getF (mergeF a b) k = (getF b k).orElse (fun _ => getF a k) := by
  have hmap : ∀ (l : Fields),
      getF (l.map (fun kv => (kv.1, (getF b kv.1).getD kv.2))) k
      = (getF l k).map (fun v => (getF b k).getD v) := by
    intro l
    induction l with
    | nil => simp [getF]
    | cons kv rest ih =>
      by_cases h : kv.1 = k
      · subst h; simp [getF, ih]
      · simp [getF, h, ih]
  have hfil : ∀ (l : Fields) (p : String → Bool),
      getF (l.filter (fun kv => p kv.1)) k = if p k then getF l k else none := by
    intro l p
    induction l with
    | nil => simp [getF]
    | cons kv rest ih =>
      by_cases h : kv.1 = k
      · subst h
        by_cases hp : p kv.1
        · simp [List.filter, hp, getF, ih]
        · simp [List.filter, hp, getF, ih,
            show (p kv.1 = false) by simpa using hp]
      · by_cases hp : p kv.1
        · simp [List.filter, hp, getF, h, ih]
        · simp [List.filter, show (p kv.1 = false) by simpa using hp, getF, h, ih]
  rw [mergeF, getF_append, hmap]
  rw [show (fun kv : String × JValue => (getF a kv.1).isNone)
        = (fun kv : String × JValue => (fun s => (getF a s).isNone) kv.1) from rfl]
  rw [hfil b (fun s => (getF a s).isNone)]
  cases ha : getF a k with
  | none => simp [ha]
  | some v =>
    cases hb : getF b k with
    | none => simp [ha, hb]
    | some w => simp [ha, hb]

theorem aget_aset_eq {α : Type} (l : List (String × α)) (k : String) (v : α) :
    aget (aset l k v) k = some v := by
  induction l with
  | nil => simp [aset, aget]
  | cons kv rest ih =>
    by_cases h : kv.1 = k
    · simp [aset, aget, h]
    · simp only [aset]
      rw [show (kv.1 == k) = false by simpa using h]
      simpa [aget, h] using ih

theorem aget_aset_ne {α : Type} (l : List (String × α)) (k k2 : String) (v : α)
    (h : k2 ≠ k) : aget (aset l k v) k2 = aget l k2 := by
  induction l with
  | nil => simp [aset, aget, show (k == k2) = false by simpa using fun hh => h hh.symm]
  | cons kv rest ih =>
    by_cases hk : kv.1 = k
    · simp only [aset]
      rw [show (kv.1 == k) = true by simpa using hk]
      by_cases hk2 : kv.1 = k2
      · exact absurd (hk ▸ hk2.symm ▸ rfl) h
      · simp [aget, hk2]
    · simp only [aset]
      rw [show (kv.1 == k) = false by simpa using hk]
      by_cases hk2 : kv.1 = k2
      · simp [aget, hk2]
      · simp [aget, hk2, ih]

/-!
## Lemmas for C4 (`concatFix`)
-/

theorem idOfDoc_mkRef (i : String) : idOfDoc (mkRef i) = i := rfl

theorem mem_dedupStrAux (l : List String) (seen : List String) (x : String)
    (hx : x ∈ dedupStrAux seen l) : x ∉ seen := by
  induction l generalizing seen with
  | nil => simp [dedupStrAux] at hx
  | cons a l ih =>
    by_cases ha : a ∈ seen
    · exact ih seen (by simpa [dedupStrAux, ha] using hx)
    · have hx2 : x = a ∨ x ∈ dedupStrAux (a :: seen) l := by
        simpa [dedupStrAux, ha] using hx
      rcases hx2 with rfl | hx2
      · exact ha
      · intro hmem
        exact ih (a :: seen) hx2 (List.mem_cons_of_mem _ hmem)

theorem nodup_dedupStrAux (l : List String) (seen : List String) :
    (dedupStrAux seen l).Nodup := by
  induction l generalizing seen with
  | nil => simp [dedupStrAux]
  | cons a l ih =>
    by_cases ha : a ∈ seen
    · simpa [dedupStrAux, ha] using ih seen
    · rw [show dedupStrAux seen (a :: l) = a :: dedupStrAux (a :: seen) l by
        simp [dedupStrAux, ha]]
      refine List.nodup_cons.mpr ⟨?_, ih (a :: seen)⟩
      intro hmem
      exact mem_dedupStrAux l (a :: seen) a hmem (List.mem_cons_self a seen)

theorem dedupStrAux_congr (l : List String) (seen1 seen2 : List String)
    (h : ∀ x, x ∈ seen1 ↔ x ∈ seen2) :
    dedupStrAux seen1 l = dedupStrAux seen2 l := by
  induction l generalizing seen1 seen2 with
  | nil => simp [dedupStrAux]
  | cons a l ih =>
    by_cases ha : a ∈ seen1
    · rw [show dedupStrAux seen1 (a :: l) = dedupStrAux seen1 l by
        simp [dedupStrAux, ha],
        show dedupStrAux seen2 (a :: l) = dedupStrAux seen2 l by
          simp [dedupStrAux, (h a).mp ha]]
      exact ih seen1 seen2 h
    · have ha2 : a ∉ seen2 := fun hh => ha ((h a).mpr hh)
      rw [show dedupStrAux seen1 (a :: l) = a :: dedupStrAux (a :: seen1) l by
        simp [dedupStrAux, ha],
        show dedupStrAux seen2 (a :: l) = a :: dedupStrAux (a :: seen2) l by
          simp [dedupStrAux, ha2]]
      exact congrArg (a :: ·) (ih (a :: seen1) (a :: seen2) (by intro x; simp [h x]))

theorem concatFix_guard_mem (final : List JValue) (i : String)
    (hmem : i ∈ final.map idOfDoc) :
    ((final.filter (fun o => idOfDoc o == i)).length == 0) = false := by
  rcases List.mem_map.mp hmem with ⟨o, ho, hid⟩
  have hin : o ∈ final.filter (fun o => idOfDoc o == i) :=
    List.mem_filter.mpr ⟨ho, by simp [hid]⟩
  cases hl : (final.filter (fun o => idOfDoc o == i)).length with
  | zero => exact absurd (List.length_eq_zero.mp hl ▸ hin) (List.not_mem_nil o)
  | succ n => rfl

theorem concatFix_guard_not_mem (final : List JValue) (i : String)
    (hmem : i ∉ final.map idOfDoc) :
    ((final.filter (fun o => idOfDoc o == i)).length == 0) = true := by
  have hfil : final.filter (fun o => idOfDoc o == i) = [] := by
    refine List.filter_eq_nil_iff.mpr ?_
    intro o ho hpo
    exact hmem (List.mem_map.mpr ⟨o, ho, by simpa using hpo⟩)
  rw [hfil]
  rfl

theorem concatFixLoop_spec (rest final : List JValue) :
    concatFixLoop rest final
      = final ++ (dedupStrAux (final.map idOfDoc) (rest.map idOfDoc)).map mkRef := by
  induction rest generalizing final with
  | nil => simp [concatFixLoop, dedupStrAux]
  | cons res rest ih =>
    by_cases hmem : idOfDoc res ∈ final.map idOfDoc
    · rw [show concatFixLoop (res :: rest) final = concatFixLoop rest final by
        simp only [concatFixLoop]
        rw [concatFix_guard_mem final (idOfDoc res) hmem]
        rfl]
      rw [ih final]
      rw [show dedupStrAux (final.map idOfDoc) ((res :: rest).map idOfDoc)
            = dedupStrAux (final.map idOfDoc) (rest.map idOfDoc) by
        simp [dedupStrAux, hmem]]
    · rw [show concatFixLoop (res :: rest) final
            = concatFixLoop rest (final ++ [mkRef (idOfDoc res)]) by
        simp only [concatFixLoop]
        rw [concatFix_guard_not_mem final (idOfDoc res) hmem]
        rfl]
      rw [ih (final ++ [mkRef (idOfDoc res)])]
      rw [show (final ++ [mkRef (idOfDoc res)]).map idOfDoc
            = final.map idOfDoc ++ [idOfDoc res] by simp [idOfDoc_mkRef]]
      rw [show dedupStrAux (final.map idOfDoc) ((res :: rest).map idOfDoc)
            = idOfDoc res :: dedupStrAux (idOfDoc res :: final.map idOfDoc)
                (rest.map idOfDoc) by
        simp [dedupStrAux, hmem]]
      rw [dedupStrAux_congr (rest.map idOfDoc) (final.map idOfDoc ++ [idOfDoc res])
        (idOfDoc res :: final.map idOfDoc) (by intro x; simp [or_comm])]
      simp

theorem map_idOfDoc_map_mkRef (l : List String) : (l.map mkRef).map idOfDoc = l := by
  induction l with
  | nil => rfl
  | cons a l ih => simp [idOfDoc_mkRef, ih]

/-- C4: the reconciliation merge `concatFix` returns the concatenation of its
input arrays with entries lacking a valid identifier dropped and the rest
deduplicated by identifier, first occurrences (as bare references) in order;
in particular `[d1, d2] ∪ [d2, d3]` yields `[ref1, ref2, ref3]` with no
duplicate ids.  The general part equates `concatFix` with the
first-occurrence deduplication `specDedupMergeIds` stated from the claim's
words, and shows the returned id list is duplicate-free. -/
theorem C4_concatFix_dedup_merge :
    concatFix [[dC4a, dC4b], [dC4b, dC4c]] = [mkRef id1C4, mkRef id2C4, mkRef id3C4]
    ∧ ∀ arrs : List (List JValue),
        concatFix arrs = (specDedupMergeIds arrs).map mkRef
        ∧ ((concatFix arrs).map idOfDoc).Nodup := by
  refine ⟨rfl, ?_⟩
  intro arrs
  have h := concatFixLoop_spec (arrs.flatten.filter filterObjectsWithoutID) []
  have h2 : concatFix arrs = (specDedupMergeIds arrs).map mkRef := by
    simpa [concatFix, specDedupMergeIds] using h
  refine ⟨h2, ?_⟩
  rw [h2, map_idOfDoc_map_mkRef]
  exact nodup_dedupStrAux _ _

/-!
## C5 — compilation read gating
-/

theorem string_ne_empty_length_pos (s : String) (h : s ≠ "") : 0 < s.length := by
  cases s with
  | mk l =>
    cases l with
    | nil => exact absurd rfl h
    | cons c cs => simp [String.length]

/-- C5: single-object read of a Compilation.  With a non-empty string
password, a requester who is not the owner and whose supplied password does
not match receives only the "password protected" marker; the owner, any
caller supplying the matching password, and any caller when the password is
empty or absent receive the full body. -/
theorem C5_compilation_password_gating
    (o : JValue) (isOwner : Bool) (pwParam : Option String)
    (hcomp : isCompilationJ o = true) :
    (∀ s, getFJ o "password" = some (.str s) → s ≠ "" →
        isOwner = false → pwParam.getD "" ≠ s →
        getObjectFromCollection (some o) isOwner pwParam = .protectedMarker)
    ∧ (isOwner = true →
        getObjectFromCollection (some o) isOwner pwParam = .fullBody o)
    ∧ (∀ s, getFJ o "password" = some (.str s) → s ≠ "" → pwParam = some s →
        getObjectFromCollection (some o) isOwner pwParam = .fullBody o)
    ∧ (getFJ o "password" = none ∨ getFJ o "password" = some (.str "") →
        getObjectFromCollection (some o) isOwner pwParam = .fullBody o) := by
  have heff : (match pwParam with
      | some p => if p != "" then p else ""
      | none => "") = pwParam.getD "" := by
    cases pwParam with
    | none => rfl
    | some p =>
      by_cases hp : p = ""
      · simp [hp]
      · simp [hp]
  refine ⟨?_, ?_, ?_, ?_⟩
  · intro s hpw hs howner hne
    simp only [getObjectFromCollection, hcomp, hpw, heff, if_true]
    rw [show jsTruthy (.str s) = true by simpa [jsTruthy] using hs]
    rw [show (match jsLength (JValue.str s) with
        | some n => decide (0 < n)
        | none => false) = true by
      simpa [jsLength] using string_ne_empty_length_pos s hs]
    rw [show (s == pwParam.getD "") = false by
      simpa using fun hh : s = pwParam.getD "" => hne hh.symm]
    simp [howner]
  · intro howner
    simp only [getObjectFromCollection, hcomp, if_true, howner]
    cases hpw : getFJ o "password" with
    | none => simp
    | some v => simp
  · intro s hpw hs hsome
    simp only [getObjectFromCollection, hcomp, hpw, heff, if_true]
    rw [show jsTruthy (.str s) = true by simpa [jsTruthy] using hs]
    rw [show (s == pwParam.getD "") = true by simp [hsome]]
    simp
  · intro hpw
    rcases hpw with hpw | hpw
    · simp [getObjectFromCollection, hcomp, hpw]
    · simp [getObjectFromCollection, hcomp, hpw, jsTruthy]

/-- C5 witness: the password-protected compilation `compC5` (password "x")
at the three concrete access situations. -/
theorem C5_compilation_password_gating_witness :
    getObjectFromCollection (some compC5) false (some "wrong") = .protectedMarker
    ∧ getObjectFromCollection (some compC5) true none = .fullBody compC5
    ∧ getObjectFromCollection (some compC5) false (some "x") = .fullBody compC5 := by
  refine ⟨?_, ?_, ?_⟩
  · exact (C5_compilation_password_gating compC5 false (some "wrong") rfl).1
      "x" rfl (by decide) rfl (by decide)
  · exact (C5_compilation_password_gating compC5 true none rfl).2.1 rfl
  · exact (C5_compilation_password_gating compC5 false (some "x") rfl).2.2.1
      "x" rfl (by decide) rfl

/-!
## C6 — delete gating and account pruning
-/

/-- C6: the permission checks behave as claimed (username mismatch and
non-owned identifiers are rejected without changes), and on success the
document is removed from storage — but the claimed pruning of the reference
from the account's `data` does not happen: the filter compares the ObjectId
entry against `identifier.toString()` with strict inequality (`id !==
identifier.toString()`), an object-to-string comparison that is always true,
so the entry stays in `data` (last conjunct: the filter keeps any ObjectId
entry whatever the identifier string is). -/
theorem C6_delete_leaves_account_data :
    removeObjectFromCollection [docC6] (some accC6) (some "u") delIdC6 "compilation"
      = .ok [] [("compilation", [.oid delIdC6])]
    ∧ removeObjectFromCollection [docC6] (some accC6) (some "v") delIdC6 "compilation"
      = .errNoMatchUser
    ∧ removeObjectFromCollection [docC6] (some accC6) (some "u")
        "facefacefacefacefaceface" "compilation" = .errNotOwned
    ∧ ∀ (s idStr : String),
        [JValue.oid s].filter (fun e => !(strictEqToString e idStr)) = [JValue.oid s] := by
  refine ⟨rfl, rfl, rfl, ?_⟩
  intro s idStr
  simp [strictEqToString]

/-!
## C7 — the serialized-containment ownership test
-/

theorem isPrefixOf_length {p l : List Char} (h : p.isPrefixOf l = true) :
    p.length ≤ l.length := by
  have h2 : p <+: l := by simpa using h
  exact h2.length_le

theorem listContainsSub_length {hay pat : List Char}
    (h : listContainsSub hay pat = true) : pat.length ≤ hay.length := by
  induction hay with
  | nil =>
    have h2 : pat.isPrefixOf ([] : List Char) = true := by
      simpa [listContainsSub] using h
    exact isPrefixOf_length h2
  | cons c t ih =>
    have h2 : pat.isPrefixOf (c :: t) = true ∨ listContainsSub t pat = true := by
      simpa [listContainsSub] using h
    rcases h2 with h2 | h2
    · exact isPrefixOf_length h2
    · exact Nat.le_succ_of_le (ih h2)

theorem isPrefixOf_quote2 (p : List Char) :
    p.isPrefixOf ['"', '"'] = true ↔ p = [] ∨ p = ['"'] ∨ p = ['"', '"'] := by
  cases p with
  | nil => simp [List.isPrefixOf]
  | cons c cs =>
    cases cs with
    | nil => simp [List.isPrefixOf]
    | cons c2 cs2 =>
      cases cs2 with
      | nil => simp [List.isPrefixOf, and_comm]
      | cons c3 cs3 => simp [List.isPrefixOf]

theorem listContainsSub_quote2 (p : List Char) :
    listContainsSub ['"', '"'] p = true ↔ p = [] ∨ p = ['"'] ∨ p = ['"', '"'] := by
  constructor
  · intro h
    have h2 : p.isPrefixOf ['"', '"'] = true ∨
        (p.isPrefixOf ['"'] = true ∨ p.isPrefixOf ([] : List Char) = true) := by
      simpa [listContainsSub] using h
    rcases h2 with h2 | h2 | h2
    · exact (isPrefixOf_quote2 p).mp h2
    · cases p with
      | nil => exact Or.inl rfl
      | cons c cs =>
        cases cs with
        | nil =>
          have : c = '"' := by simpa [List.isPrefixOf] using h2
          exact Or.inr (Or.inl (by simp [this]))
        | cons c2 cs2 => simp [List.isPrefixOf] at h2
    · cases p with
      | nil => exact Or.inl rfl
      | cons c cs => simp [List.isPrefixOf] at h2
  · rintro (rfl | rfl | rfl) <;> rfl

theorem jsToLower_length (s : String) : (jsToLower s).length = s.length := by
  show (s.data.map lowerChar).length = s.data.length
  simp

theorem string_eq_of_data_eq {s t : String} (h : s.data = t.data) : s = t := by
  cases s
  cases t
  exact congrArg String.mk h

/-- C7 counterexample: the claim says a session with no Account record gets
`false` for every identifier, but for the empty identifier the source
computes `JSON.stringify('').indexOf('')`, which is `0`, so it returns true. -/
theorem C7_no_account_empty_identifier_owns :
    isUserOwnerOfObject none "" = some true := rfl

/-- C7 (amended): the ownership test returns exactly the substring test of
the identifier's string form (valid identifiers lower-cased) against
`JSON.stringify` of the account's `data`; structural members are found, and
plain substring collisions (here the collection key "model") also pass,
showing the test is not structural membership.  With no Account record the
test runs against the two-character serialization of `''`, so it returns
true exactly for the empty identifier and the quote strings `"` and `""`,
and false for everything else. -/
theorem C7_ownership_is_serialized_containment :
    (∀ (u d : JValue) (identifier : String), getFJ u "data" = some d →
        isUserOwnerOfObject (some u) identifier
          = some (strContains (jsonStringify d)
              (if isValidObjectId identifier then jsToLower identifier else identifier)))
    ∧ (∀ identifier : String,
        isUserOwnerOfObject none identifier = some true
          ↔ identifier = "" ∨ identifier = "\"" ∨ identifier = "\"\"")
    ∧ isUserOwnerOfObject (some accC7) ownIdC7 = some true
    ∧ isUserOwnerOfObject (some accC7) "model" = some true
    ∧ isUserOwnerOfObject (some accC7) "ababababababababababab02" = some false := by
  refine ⟨?_, ?_, rfl, rfl, rfl⟩
  · intro u d identifier hd
    simp [isUserOwnerOfObject, hd]
  · intro identifier
    constructor
    · intro h
      have h2 : strContains (jsonStringify (.str ""))
          (if isValidObjectId identifier then jsToLower identifier else identifier) = true := by
        simpa [isUserOwnerOfObject] using h
      by_cases hv : isValidObjectId identifier = true
      · exfalso
        rw [if_pos hv] at h2
        have hsub : listContainsSub ("\"\"".data) (jsToLower identifier).data = true := h2
        have hlen : (jsToLower identifier).data.length ≤ 2 := by
          have h5 := listContainsSub_length hsub
          rw [show ("\"\"" : String).data.length = 2 from rfl] at h5
          exact h5
        have h24 : identifier.length = 24 := by
          simp [isValidObjectId] at hv
          exact hv.1
        have hlen2 : (jsToLower identifier).data.length = 24 := by
          have h6 := jsToLower_length identifier
          rw [h24] at h6
          exact h6
        omega
      · rw [if_neg hv] at h2
        have h3 := (listContainsSub_quote2 identifier.data).mp h2
        rcases h3 with h3 | h3 | h3
        · exact Or.inl (string_eq_of_data_eq (by simpa using h3))
        · exact Or.inr (Or.inl (string_eq_of_data_eq (by simpa using h3)))
        · exact Or.inr (Or.inr (string_eq_of_data_eq (by simpa using h3)))
    · rintro (rfl | rfl | rfl) <;> rfl

/-- C7 witness: the general containment characterization applied to the
concrete account `accC7`. -/
theorem C7_ownership_witness :
    isUserOwnerOfObject (some accC7) ownIdC7
      = some (strContains (jsonStringify (.obj [("model", .arr [.oid ownIdC7])]))
          (if isValidObjectId ownIdC7 then jsToLower ownIdC7 else ownIdC7)) :=
  C7_ownership_is_serialized_containment.1 accC7
    (.obj [("model", .arr [.oid ownIdC7])]) ownIdC7 rfl

/-!
## C8 — attaching references to the session account
-/

/-- C8 counterexample: `insertCurrentUserData` compares
`entry.toString() === identifier.toString()` against the raw identifier, but
pushes the canonicalized `new ObjectId(identifier)`.  A valid identifier
written in uppercase hex therefore never matches the stored lowercase entry:
attaching the same identifier twice stores two entries denoting the same
ObjectId, contradicting "exactly one occurrence". -/
theorem C8_uppercase_identifier_duplicates :
    insertCurrentUserData
        (insertCurrentUserData (some dataC8) (.str upIdC8) "model").2
        (.str upIdC8) "model"
      = (true, some [("model",
          [.oid "abcdefabcdefabcdefabcdef", .oid "abcdefabcdefabcdefabcdef"])])
    ∧ canonId (.str upIdC8) = "abcdefabcdefabcdefabcdef" :=
  ⟨rfl, rfl⟩

/-- C8 (amended): for every identifier whose string form is already canonical
(every ObjectId instance — the only form the call sites pass — and every
lowercase-hex string), attaching is idempotent: a successful attach appends
the reference only if it is not already present, a second attach returns
success without changing anything, and the stored occurrence count of the
identifier is one when it was absent and unchanged otherwise. -/
theorem C8_insert_idempotent_for_canonical_ids
    (dt : AccData) (identifier : JValue) (coll : String)
    (h1 : oidIsValidJ (some identifier) = true)
    (h0 : canonId identifier ≠ "")
    (h2 : jsToString identifier = canonId identifier)
    (h3 : ∀ e ∈ (aget dt coll).getD [], isOidOrStr e = true) :
    ∃ dt1, insertCurrentUserData (some dt) identifier coll = (true, some dt1)
      ∧ insertCurrentUserData (some dt1) identifier coll = (true, some dt1)
      ∧ ((aget dt1 coll).getD []).countP (fun e => jsToString e == canonId identifier)
          = (if ((aget dt coll).getD []).countP
                (fun e => jsToString e == canonId identifier) = 0
             then 1
             else ((aget dt coll).getD []).countP
                (fun e => jsToString e == canonId identifier)) := by
  have hfilterany :
      (((aget dt coll).getD []).filter jsTruthy).any
          (fun e => jsToString e == jsToString identifier)
        = ((aget dt coll).getD []).any
            (fun e => jsToString e == canonId identifier) := by
    rw [h2]
    have himp1 : (((aget dt coll).getD []).filter jsTruthy).any
        (fun e => jsToString e == canonId identifier) = true →
        ((aget dt coll).getD []).any
          (fun e => jsToString e == canonId identifier) = true := by
      intro h
      rcases List.any_eq_true.mp h with ⟨e, he, hpe⟩
      exact List.any_eq_true.mpr ⟨e, (List.mem_filter.mp he).1, hpe⟩
    have himp2 : ((aget dt coll).getD []).any
        (fun e => jsToString e == canonId identifier) = true →
        (((aget dt coll).getD []).filter jsTruthy).any
          (fun e => jsToString e == canonId identifier) = true := by
      intro h
      rcases List.any_eq_true.mp h with ⟨e, he, hpe⟩
      have htr : jsTruthy e = true := by
        have hos := h3 e he
        cases e with
        | oid s => rfl
        | str s2 =>
          have hs2 : s2 = canonId identifier := by simpa [jsToString] using hpe
          subst hs2
          simpa [jsTruthy] using h0
        | null => simp [isOidOrStr] at hos
        | bool b => simp [isOidOrStr] at hos
        | num n => simp [isOidOrStr] at hos
        | arr xs => simp [isOidOrStr] at hos
        | obj fs => simp [isOidOrStr] at hos
      exact List.any_eq_true.mpr ⟨e, List.mem_filter.mpr ⟨he, htr⟩, hpe⟩
    cases hL : (((aget dt coll).getD []).filter jsTruthy).any
        (fun e => jsToString e == canonId identifier) with
    | false =>
      cases hR : ((aget dt coll).getD []).any
          (fun e => jsToString e == canonId identifier) with
      | false => rfl
      | true => exact absurd (himp2 hR) (by simp [hL])
    | true => exact (himp1 hL).symm
  cases hany : ((aget dt coll).getD []).any
      (fun e => jsToString e == canonId identifier) with
  | true =>
    refine ⟨dt, ?_, ?_, ?_⟩
    · simp only [insertCurrentUserData, h1, Bool.not_true, Bool.false_eq_true,
        if_false]
      rw [hfilterany, hany]
      simp
    · simp only [insertCurrentUserData, h1, Bool.not_true, Bool.false_eq_true,
        if_false]
      rw [hfilterany, hany]
      simp
    · have hne : ((aget dt coll).getD []).countP
          (fun e => jsToString e == canonId identifier) ≠ 0 := by
        rcases List.any_eq_true.mp hany with ⟨e, he, hpe⟩
        intro hzero
        exact absurd hpe (by simpa using List.countP_eq_zero.mp hzero e he)
      rw [if_neg hne]
  | false =>
    refine ⟨aset dt coll (((aget dt coll).getD []) ++ [JValue.oid (canonId identifier)]),
      ?_, ?_, ?_⟩
    · simp only [insertCurrentUserData, h1, Bool.not_true, Bool.false_eq_true,
        if_false]
      rw [hfilterany, hany]
      simp
    · simp only [insertCurrentUserData, h1, Bool.not_true, Bool.false_eq_true,
        if_false]
      rw [aget_aset_eq]
      have hmem : JValue.oid (canonId identifier)
          ∈ (((aget dt coll).getD []) ++ [JValue.oid (canonId identifier)]).filter jsTruthy := by
        refine List.mem_filter.mpr ⟨List.mem_append.mpr (Or.inr ?_), rfl⟩
        exact List.mem_singleton.mpr rfl
      have hex : ((((aget dt coll).getD []) ++ [JValue.oid (canonId identifier)]).filter
            jsTruthy).any (fun e => jsToString e == jsToString identifier) = true := by
        refine List.any_eq_true.mpr ⟨JValue.oid (canonId identifier), hmem, ?_⟩
        show (jsToString (JValue.oid (canonId identifier)) == jsToString identifier) = true
        rw [show jsToString (JValue.oid (canonId identifier)) = canonId identifier from rfl, h2]
        simp
      rw [show ((aget dt coll).getD [] ++ [JValue.oid (canonId identifier)] : List JValue)
          = (some ((aget dt coll).getD [] ++ [JValue.oid (canonId identifier)])).getD [] from rfl] at hex
      rw [hex]
      simp
    · rw [aget_aset_eq]
      have hzero : ((aget dt coll).getD []).countP
          (fun e => jsToString e == canonId identifier) = 0 := by
        refine List.countP_eq_zero.mpr ?_
        intro e he
        have h7 := List.any_eq_false.mp hany e he
        simpa using h7
      rw [if_pos hzero]
      rw [show ((some (((aget dt coll).getD []) ++ [JValue.oid (canonId identifier)])).getD []
            : List JValue)
          = ((aget dt coll).getD []) ++ [JValue.oid (canonId identifier)] from rfl]
      rw [List.countP_append, hzero]
      simp [List.countP, List.countP.go, jsToString]

/-- C8 witness: the amended idempotence applied to an empty account and the
canonical ObjectId identifier. -/
theorem C8_insert_idempotent_witness :
    ∃ dt1, insertCurrentUserData (some dataC8) (.oid "abcdefabcdefabcdefabcdef") "model"
        = (true, some dt1)
      ∧ insertCurrentUserData (some dt1) (.oid "abcdefabcdefabcdefabcdef") "model"
        = (true, some dt1)
      ∧ ((aget dt1 "model").getD []).countP
            (fun e => jsToString e == canonId (.oid "abcdefabcdefabcdefabcdef"))
          = (if ((aget dataC8 "model").getD []).countP
                (fun e => jsToString e == canonId (.oid "abcdefabcdefabcdefabcdef")) = 0
             then 1
             else ((aget dataC8 "model").getD []).countP
                (fun e => jsToString e == canonId (.oid "abcdefabcdefabcdefabcdef"))) :=
  C8_insert_idempotent_for_canonical_ids dataC8 (.oid "abcdefabcdefabcdefabcdef") "model"
    rfl (by decide) rfl (by intro e he; simp [dataC8, aget] at he)

/-!
## C9 — the filtered search
-/

/-- C9 counterexample: the claim says arrays of scalars are not included in
the searched text, but `Object.keys` of a string element enumerates its
characters, which are pushed one by one, so a string inside an array
contributes itself to the concatenation: the search finds "foo" inside the
scalar array `["foo"]` while the claim's semantics (`specSearch`) does not. -/
theorem C9_string_array_elements_are_searched :
    searchObjectWithFilter [docC9] (some ["foo"]) = some [.oid "111111111111111111111111"]
    ∧ specSearch [docC9] ["foo"] = [] :=
  ⟨rfl, rfl⟩

theorem loopMatch_all (text : String) (l : List String) (h : l ≠ []) :
    loopMatch text l = l.all (fun t => strContains text t) := by
  induction l with
  | nil => exact absurd rfl h
  | cons t rest ih =>
    cases rest with
    | nil => simp [loopMatch, List.all]
    | cons t2 rest2 =>
      rw [show loopMatch text (t :: t2 :: rest2)
          = (strContains text t && loopMatch text (t2 :: rest2)) from rfl]
      rw [ih (by simp)]
      simp [List.all_cons]

theorem filterResults_characterization (filt2 : List String) (hne : filt2 ≠ []) :
    ∀ docs : List JValue, (∀ d ∈ docs, (gnv d).isSome) →
    filterResults filt2 docs
      = some ((docs.filter (fun d =>
            filt2.all (fun t => strContains ((textOfDoc d).getD "") t))).map
          (fun d => (getFJ d "_id").getD .null)) := by
  intro docs
  induction docs with
  | nil => intro _; simp [filterResults]
  | cons d rest ih =>
    intro hsafe
    rcases Option.isSome_iff_exists.mp (hsafe d (List.mem_cons_self d rest)) with ⟨l, hl⟩
    have htod : textOfDoc d = some (jsToLower (String.join l)) := by
      simp [textOfDoc, hl]
    rw [show filterResults filt2 (d :: rest)
        = (match textOfDoc d, filterResults filt2 rest with
           | some t, some others =>
             some (if loopMatch t filt2 then ((getFJ d "_id").getD .null) :: others
                   else others)
           | _, _ => none) from rfl]
    rw [htod, ih (fun d2 hd2 => hsafe d2 (List.mem_cons_of_mem _ hd2))]
    simp only [loopMatch_all _ _ hne]
    by_cases hm : filt2.all (fun t => strContains (jsToLower (String.join l)) t) = true
    · rw [show (List.filter (fun d =>
          filt2.all (fun t => strContains ((textOfDoc d).getD "") t)) (d :: rest))
          = d :: (List.filter (fun d =>
              filt2.all (fun t => strContains ((textOfDoc d).getD "") t)) rest) by
        simp [List.filter_cons, htod, hm]]
      simp [hm]
    · rw [show (List.filter (fun d =>
          filt2.all (fun t => strContains ((textOfDoc d).getD "") t)) (d :: rest))
          = (List.filter (fun d =>
              filt2.all (fun t => strContains ((textOfDoc d).getD "") t)) rest) by
        simp [List.filter_cons, htod, hm]]
      simp [hm]

theorem filterResults_empty_filter :
    ∀ docs : List JValue, (∀ d ∈ docs, (gnv d).isSome) →
    filterResults [] docs = some [] := by
  intro docs
  induction docs with
  | nil => intro _; simp [filterResults]
  | cons d rest ih =>
    intro hsafe
    rcases Option.isSome_iff_exists.mp (hsafe d (List.mem_cons_self d rest)) with ⟨l, hl⟩
    have htod : textOfDoc d = some (jsToLower (String.join l)) := by
      simp [textOfDoc, hl]
    rw [show filterResults [] (d :: rest)
        = (match textOfDoc d, filterResults [] rest with
           | some t, some others =>
             some (if loopMatch t [] then ((getFJ d "_id").getD .null) :: others
                   else others)
           | _, _ => none) from rfl]
    rw [htod, ih (fun d2 hd2 => hsafe d2 (List.mem_cons_of_mem _ hd2))]
    rfl

/-- C9 (amended): on the collections without special pre-processing, for
every non-empty filter list and every document set on which
`getNestedValues` does not throw, the search returns exactly the `_id`s of
the documents whose lower-cased nested text (string fields, recursed
objects and arrays, string array elements contributing their characters)
contains every lower-cased filter term; an explicitly empty filter list
returns no identifiers. -/
theorem C9_search_returns_matching_ids (docs : List JValue) (filt : List String)
    (hne : filt ≠ [])
    (hsafe : ∀ d ∈ docs, (gnv d).isSome) :
    searchObjectWithFilter docs (some filt)
      = some ((docs.filter (fun d =>
            filt.all (fun t => strContains ((textOfDoc d).getD "") (jsToLower t)))).map
          (fun d => (getFJ d "_id").getD .null))
    ∧ searchObjectWithFilter docs (some []) = some [] := by
  constructor
  · have h := filterResults_characterization (filt.map jsToLower)
      (by simpa using hne) docs hsafe
    rw [show searchObjectWithFilter docs (some filt)
        = filterResults (filt.map jsToLower) docs from rfl, h]
    simp only [List.all_map]
    rfl
  · exact filterResults_empty_filter docs hsafe

/-- C9 witness: the characterization applied to the concrete document. -/
theorem C9_search_witness :
    searchObjectWithFilter [docC9] (some ["FOO"])
      = some (([docC9].filter (fun d =>
            ["FOO"].all (fun t => strContains ((textOfDoc d).getD "") (jsToLower t)))).map
          (fun d => (getFJ d "_id").getD .null))
    ∧ searchObjectWithFilter [docC9] (some []) = some [] :=
  C9_search_returns_matching_ids [docC9] ["FOO"] (by simp)
    (by intro d hd; rw [List.mem_singleton] at hd; subst hd; rfl)

/-!
## C2 — role map normalization
-/

theorem mem_dedupAux (r : JValue → JValue → Bool) (l seen : List JValue) (x : JValue)
    (hx : x ∈ dedupAux r seen l) : seen.any (fun y => r y x) = false := by
  induction l generalizing seen with
  | nil => simp [dedupAux] at hx
  | cons a l ih =>
    by_cases ha : seen.any (fun y => r y a) = true
    · exact ih seen (by simpa [dedupAux, ha] using hx)
    · have hx2 : x = a ∨ x ∈ dedupAux r (a :: seen) l := by
        rw [show dedupAux r seen (a :: l) = a :: dedupAux r (a :: seen) l by
          simp [dedupAux, ha]] at hx
        simpa using hx
      rcases hx2 with rfl | hx2
      · simpa using ha
      · have h2 := ih (a :: seen) hx2
        rw [List.any_cons] at h2
        simpa using (Bool.or_eq_false_iff.mp h2).2

theorem nodupBy_dedupAux (r : JValue → JValue → Bool) (l seen : List JValue) :
    nodupBy r (dedupAux r seen l) = true := by
  induction l generalizing seen with
  | nil => simp [dedupAux, nodupBy]
  | cons a l ih =>
    by_cases ha : seen.any (fun y => r y a) = true
    · simpa [dedupAux, ha] using ih seen
    · rw [show dedupAux r seen (a :: l) = a :: dedupAux r (a :: seen) l by
        simp [dedupAux, ha]]
      rw [show nodupBy r (a :: dedupAux r (a :: seen) l)
          = ((dedupAux r (a :: seen) l).all (fun y => !(r a y))
              && nodupBy r (dedupAux r (a :: seen) l)) from rfl]
      rw [ih (a :: seen)]
      rw [show (dedupAux r (a :: seen) l).all (fun y => !(r a y)) = true by
        refine List.all_eq_true.mpr ?_
        intro y hy
        have h2 := mem_dedupAux r l (a :: seen) y hy
        rw [List.any_cons] at h2
        simpa using (Bool.or_eq_false_iff.mp h2).1]
      rfl

theorem nodupBy_filter (r : JValue → JValue → Bool) (p : JValue → Bool)
    (l : List JValue) (h : nodupBy r l = true) : nodupBy r (l.filter p) = true := by
  induction l with
  | nil => simp [nodupBy]
  | cons x l ih =>
    rw [show nodupBy r (x :: l) = (l.all (fun y => !(r x y)) && nodupBy r l) from rfl,
      Bool.and_eq_true] at h
    rcases h with ⟨hall, hrest⟩
    by_cases hp : p x = true
    · rw [show (x :: l).filter p = x :: l.filter p by simp [List.filter_cons, hp]]
      rw [show nodupBy r (x :: l.filter p)
          = ((l.filter p).all (fun y => !(r x y)) && nodupBy r (l.filter p)) from rfl]
      rw [ih hrest]
      rw [show (l.filter p).all (fun y => !(r x y)) = true by
        refine List.all_eq_true.mpr ?_
        intro y hy
        exact List.all_eq_true.mp hall y (List.mem_filter.mp hy).1]
      rfl
    · rw [show (x :: l).filter p = l.filter p by
        simp [List.filter_cons, show p x = false by simpa using hp]]
      exact ih hrest

theorem all_truthy_filter (l : List JValue) :
    (l.filter jsTruthy).all jsTruthy = true := by
  refine List.all_eq_true.mpr ?_
  intro y hy
  exact (List.mem_filter.mp hy).2

theorem rolesGetEntry_setF_other (fs : Fields) (k : String) (v : JValue)
    (digId : String) (hk : k ≠ "roles") :
    rolesGetEntry (setF fs k v) digId = rolesGetEntry fs digId := by
  unfold rolesGetEntry
  rw [getF_setF_ne fs k "roles" v (fun hh => hk hh.symm)]

theorem rolesSetEntry_obj (fs rfs : Fields) (digId : String) (v : JValue)
    (h : getF fs "roles" = some (.obj rfs)) :
    getF (rolesSetEntry fs digId v) "roles" = some (.obj (setF rfs digId v)) := by
  unfold rolesSetEntry
  rw [h]
  exact getF_setF_eq fs "roles" (.obj (setF rfs digId v))

theorem rolesGetEntry_rolesSetEntry (fs rfs : Fields) (digId : String) (v : JValue)
    (h : getF fs "roles" = some (.obj rfs)) :
    rolesGetEntry (rolesSetEntry fs digId v) digId = some v := by
  unfold rolesGetEntry
  rw [rolesSetEntry_obj fs rfs digId v h]
  exact getF_setF_eq rfs digId v

theorem getF_rolesSetEntry_ne (fs : Fields) (digId : String) (v : JValue) (k : String)
    (h : k ≠ "roles") : getF (rolesSetEntry fs digId v) k = getF fs k := by
  unfold rolesSetEntry
  cases hr : getF fs "roles" with
  | none => rfl
  | some r =>
    cases r with
    | obj rfs => exact getF_setF_ne fs "roles" k _ h
    | null => rfl
    | bool b => rfl
    | num n => rfl
    | str s2 => rfl
    | oid s2 => rfl
    | arr xs => rfl

theorem handleRoleProp_skip_none (dr : Bool) (digId : String) (nr : Option JValue)
    (fs : Fields) (prop : String) (h : getF fs prop = none) :
    handleRoleProp dr digId nr fs prop = fs := by
  unfold handleRoleProp
  rw [h]

theorem handleRoleProp_skip_falsy (dr : Bool) (digId : String) (nr : Option JValue)
    (fs : Fields) (prop : String) (pv : JValue)
    (h : getF fs prop = some pv) (hf : jsTruthy pv = false) :
    handleRoleProp dr digId nr fs prop = fs := by
  unfold handleRoleProp
  rw [h]
  simp [hf]

theorem getF_handleRoleProp_ne (dr : Bool) (digId : String) (nr : Option JValue)
    (fs : Fields) (prop k : String) (h1 : k ≠ "roles") (h2 : k ≠ prop) :
    getF (handleRoleProp dr digId nr fs prop) k = getF fs k := by
  unfold handleRoleProp
  cases hp : getF fs prop with
  | none => rfl
  | some pv =>
    by_cases ht : jsTruthy pv = true
    · simp only [ht, Bool.not_true, Bool.false_eq_true, if_false]
      rw [getF_setF_ne _ prop k _ h2, getF_rolesSetEntry_ne _ _ _ k h1,
        getF_setF_ne _ prop k _ h2]
    · simp only [show jsTruthy pv = false by simpa using ht, Bool.not_false, if_true]

theorem handleRoleProp_sets_entry (dr : Bool) (digId : String) (nr : Option JValue)
    (fs : Fields) (prop : String) (pv : JValue) (rfs : Fields)
    (hpne : prop ≠ "roles")
    (hpv : getF fs prop = some pv) (ht : jsTruthy pv = true)
    (hobj : getF fs "roles" = some (.obj rfs)) :
    ∃ m, rolesGetEntry (handleRoleProp dr digId nr fs prop) digId
        = some (.arr (dedupJS m))
      ∧ ∃ rfs2, getF (handleRoleProp dr digId nr fs prop) "roles"
        = some (.obj rfs2) := by
  unfold handleRoleProp
  rw [hpv]
  simp only [ht, Bool.not_true, Bool.false_eq_true, if_false]
  exact ⟨_,
    (rolesGetEntry_setF_other _ prop _ digId hpne).trans
      (rolesGetEntry_rolesSetEntry _ rfs digId _
        (by rw [getF_setF_ne fs prop "roles" _ (fun hh => hpne hh.symm)]; exact hobj)),
    ⟨_, by
      rw [getF_setF_ne _ prop "roles" _ (fun hh => hpne hh.symm)]
      exact rolesSetEntry_obj _ rfs digId _
        (by rw [getF_setF_ne fs prop "roles" _ (fun hh => hpne hh.symm)]; exact hobj)⟩⟩

theorem rolePropPair_entry (dr : Bool) (digId : String) (nr : Option JValue)
    (fs2 : Fields)
    (hobj2 : ∃ rfs, getF fs2 "roles" = some (.obj rfs))
    (hprop : (∃ pv, getF fs2 "person_role" = some pv ∧ jsTruthy pv = true)
      ∨ ((∀ pv, getF fs2 "person_role" = some pv → jsTruthy pv = false)
          ∧ ∃ iv, getF fs2 "institution_role" = some iv ∧ jsTruthy iv = true)) :
    ∃ m, rolesGetEntry (handleRoleProp dr digId nr
          (handleRoleProp dr digId nr fs2 "institution_role") "person_role") digId
        = some (.arr (dedupJS m))
      ∧ ∃ rfs2, getF (handleRoleProp dr digId nr
          (handleRoleProp dr digId nr fs2 "institution_role") "person_role") "roles"
        = some (.obj rfs2) := by
  rcases hobj2 with ⟨rfs, hobj2⟩
  rcases hprop with ⟨pv, hpv, ht⟩ | ⟨hnp, iv, hiv, hti⟩
  · have hobj3 : ∃ rfs3, getF (handleRoleProp dr digId nr fs2 "institution_role") "roles"
        = some (.obj rfs3) := by
      cases hi : getF fs2 "institution_role" with
      | none =>
        rw [handleRoleProp_skip_none dr digId nr fs2 _ hi]
        exact ⟨rfs, hobj2⟩
      | some iv =>
        by_cases hit : jsTruthy iv = true
        · exact (handleRoleProp_sets_entry dr digId nr fs2 "institution_role" iv rfs
            (by decide) hi hit hobj2).choose_spec.2
        · rw [handleRoleProp_skip_falsy dr digId nr fs2 _ iv hi (by simpa using hit)]
          exact ⟨rfs, hobj2⟩
    have hpv3 : getF (handleRoleProp dr digId nr fs2 "institution_role") "person_role"
        = some pv := by
      rw [getF_handleRoleProp_ne dr digId nr fs2 "institution_role" "person_role"
        (by decide) (by decide)]
      exact hpv
    rcases hobj3 with ⟨rfs3, hobj3⟩
    exact handleRoleProp_sets_entry dr digId nr _ "person_role" pv rfs3
      (by decide) hpv3 ht hobj3
  · rcases handleRoleProp_sets_entry dr digId nr fs2 "institution_role" iv rfs
      (by decide) hiv hti hobj2 with ⟨m, hentry, rfs3, hobj3⟩
    have hp3 : getF (handleRoleProp dr digId nr fs2 "institution_role") "person_role"
        = getF fs2 "person_role" :=
      getF_handleRoleProp_ne dr digId nr fs2 "institution_role" "person_role"
        (by decide) (by decide)
    cases hp : getF fs2 "person_role" with
    | none =>
      rw [handleRoleProp_skip_none dr digId nr _ "person_role" (hp3.trans hp)]
      exact ⟨m, hentry, rfs3, hobj3⟩
    | some pv =>
      rw [handleRoleProp_skip_falsy dr digId nr _ "person_role" pv (hp3.trans hp)
        (hnp pv hp)]
      exact ⟨m, hentry, rfs3, hobj3⟩

theorem rolesFilterStep_entry (fs rfs : Fields) (digId : String) (l : List JValue)
    (hobj : getF fs "roles" = some (.obj rfs))
    (hentry : rolesGetEntry fs digId = some (.arr l)) :
    rolesGetEntry (rolesFilterStep digId fs) digId
      = some (.arr (l.filter jsTruthy)) := by
  unfold rolesFilterStep
  rw [hobj, hentry]
  exact rolesGetEntry_rolesSetEntry fs rfs digId _ hobj

theorem rolesGetEntry_delF_id (fs : Fields) (digId : String) :
    rolesGetEntry (delF fs "_id") digId = rolesGetEntry fs digId := by
  unfold rolesGetEntry
  rw [getF_delF_ne fs "_id" "roles" (by decide)]

theorem getF_rolesFilterStep_ne (fs : Fields) (digId k : String) (h : k ≠ "roles") :
    getF (rolesFilterStep digId fs) k = getF fs k := by
  unfold rolesFilterStep
  repeat' split
  all_goals first
    | rfl
    | exact getF_rolesSetEntry_ne fs digId _ k h

theorem normalizeFields_roles_entry
    (coll digId : String) (nr : Option JValue) (f1 : Fields)
    (hcoll : coll = "person" ∨ coll = "institution")
    (hroles : getF f1 "roles" = none ∨ ∃ rfs, getF f1 "roles" = some (.obj rfs))
    (hprop : (∃ pv, getF f1 "person_role" = some pv ∧ jsTruthy pv = true)
      ∨ ((∀ pv, getF f1 "person_role" = some pv → jsTruthy pv = false)
          ∧ ∃ iv, getF f1 "institution_role" = some iv ∧ jsTruthy iv = true)) :
    ∃ l, rolesGetEntry (normalizeFields coll digId nr f1) digId = some (.arr l)
      ∧ nodupBy svz l = true ∧ l.all jsTruthy = true := by
  have hcond : (coll == "person" || coll == "institution") = true := by
    rcases hcoll with rfl | rfl <;> rfl
  have hrs : roleStep coll digId nr f1
      = handleRoleProp (getF f1 "roles").isSome digId nr
          (handleRoleProp (getF f1 "roles").isSome digId nr
            (rolesSetEntry
              (if (getF f1 "roles").isSome then f1 else setF f1 "roles" (.obj []))
              digId
              (match rolesGetEntry
                  (if (getF f1 "roles").isSome then f1 else setF f1 "roles" (.obj []))
                  digId with
               | some c => if jsTruthy c then c else .arr []
               | none => .arr []))
            "institution_role") "person_role" := by
    unfold roleStep
    rw [if_pos hcond]
  have hobjFS1 : ∃ rfs1,
      getF (if (getF f1 "roles").isSome then f1 else setF f1 "roles" (.obj [])) "roles"
        = some (.obj rfs1) := by
    rcases hroles with hnone | ⟨rfs, hsome⟩
    · rw [if_neg (by simp [hnone])]
      exact ⟨[], getF_setF_eq f1 "roles" (.obj [])⟩
    · rw [if_pos (by simp [hsome])]
      exact ⟨rfs, hsome⟩
  have hprFS1 : ∀ p, p ≠ "roles" →
      getF (if (getF f1 "roles").isSome then f1 else setF f1 "roles" (.obj [])) p
        = getF f1 p := by
    intro p hp
    by_cases hs : (getF f1 "roles").isSome
    · rw [if_pos hs]
    · rw [if_neg hs]
      exact getF_setF_ne f1 "roles" p _ hp
  rcases hobjFS1 with ⟨rfs1, hobjFS1⟩
  have hobj2 : ∃ rfs2, getF (rolesSetEntry
      (if (getF f1 "roles").isSome then f1 else setF f1 "roles" (.obj []))
      digId
      (match rolesGetEntry
          (if (getF f1 "roles").isSome then f1 else setF f1 "roles" (.obj []))
          digId with
       | some c => if jsTruthy c then c else .arr []
       | none => .arr [])) "roles" = some (.obj rfs2) :=
    ⟨_, rolesSetEntry_obj _ rfs1 digId _ hobjFS1⟩
  have hprop2 : (∃ pv, getF (rolesSetEntry
          (if (getF f1 "roles").isSome then f1 else setF f1 "roles" (.obj []))
          digId
          (match rolesGetEntry
              (if (getF f1 "roles").isSome then f1 else setF f1 "roles" (.obj []))
              digId with
           | some c => if jsTruthy c then c else .arr []
           | none => .arr [])) "person_role" = some pv ∧ jsTruthy pv = true)
      ∨ ((∀ pv, getF (rolesSetEntry
          (if (getF f1 "roles").isSome then f1 else setF f1 "roles" (.obj []))
          digId
          (match rolesGetEntry
              (if (getF f1 "roles").isSome then f1 else setF f1 "roles" (.obj []))
              digId with
           | some c => if jsTruthy c then c else .arr []
           | none => .arr [])) "person_role" = some pv → jsTruthy pv = false)
          ∧ ∃ iv, getF (rolesSetEntry
          (if (getF f1 "roles").isSome then f1 else setF f1 "roles" (.obj []))
          digId
          (match rolesGetEntry
              (if (getF f1 "roles").isSome then f1 else setF f1 "roles" (.obj []))
              digId with
           | some c => if jsTruthy c then c else .arr []
           | none => .arr [])) "institution_role" = some iv ∧ jsTruthy iv = true) := by
    rw [getF_rolesSetEntry_ne _ digId _ "person_role" (by decide),
      getF_rolesSetEntry_ne _ digId _ "institution_role" (by decide),
      hprFS1 "person_role" (by decide), hprFS1 "institution_role" (by decide)]
    exact hprop
  rcases rolePropPair_entry (getF f1 "roles").isSome digId nr _ hobj2 hprop2
    with ⟨m, hentry, rfs4, hobj4⟩
  refine ⟨(dedupJS m).filter jsTruthy, ?_, ?_, ?_⟩
  · unfold normalizeFields
    rw [hrs, rolesGetEntry_delF_id]
    exact rolesFilterStep_entry _ rfs4 digId _ hobj4 hentry
  · exact nodupBy_filter svz jsTruthy (dedupJS m) (nodupBy_dedupAux svz m [])
  · exact all_truthy_filter (dedupJS m)

/-- C2 counterexample: a person payload that supplies a `roles` map directly
(with owner entry `["A", "A"]`) and carries no `person_role` or
`institution_role` field is persisted by `addAndGetId` with the duplicate
intact — the deduplication only runs inside the role-field loop, which is
skipped here — so the stored `roles[ownerId]` entry is not duplicate-free. -/
theorem C2_explicit_roles_map_keeps_duplicates :
    (findOneByOid (getColl (addAndGetId st0C2 payloadC2 "person" none "" O1C2).2.db "person")
        "dddddddddddddddddddddddd").map (fun d => rolesGetEntry (jfields d) O1C2)
      = some (some (.arr [.str "A", .str "A"]))
    ∧ nodupBy svz [.str "A", .str "A"] = false :=
  ⟨rfl, rfl⟩

/-- C2 (amended): whenever the (store-merged) payload reaching the role block
of `addAndGetId` carries a truthy `person_role` or `institution_role` field
(and its `roles` map, if present, is an object), the normalized
`roles[ownerId]` entry is an array with no duplicate primitive entries
(deduplication is JS-`Set`-based `SameValueZero`) and no falsy entries.  The
accumulation scenario holds as stated: submitting a Person with role "A" for
owner O1, then "B" for owner O2, stores `roles = \x7bO1: ["A"], O2: ["B"]\x7d`,
and re-submitting "A" for O1 changes nothing. -/
theorem C2_roles_dedup_and_accumulation :
    (∀ (coll digId : String) (nr : Option JValue) (f1 : Fields),
      coll = "person" ∨ coll = "institution" →
      (getF f1 "roles" = none ∨ ∃ rfs, getF f1 "roles" = some (.obj rfs)) →
      ((∃ pv, getF f1 "person_role" = some pv ∧ jsTruthy pv = true)
        ∨ ((∀ pv, getF f1 "person_role" = some pv → jsTruthy pv = false)
            ∧ ∃ iv, getF f1 "institution_role" = some iv ∧ jsTruthy iv = true)) →
      ∃ l, rolesGetEntry (normalizeFields coll digId nr f1) digId = some (.arr l)
        ∧ nodupBy svz l = true ∧ l.all jsTruthy = true)
    ∧ (findOneByOid (getColl stS1.db "person") pIdC2).map
        (fun d => getF (jfields d) "roles")
      = some (some (.obj [(O1C2, .arr [.str "A"])]))
    ∧ (findOneByOid (getColl stS2.db "person") pIdC2).map
        (fun d => getF (jfields d) "roles")
      = some (some (.obj [(O1C2, .arr [.str "A"]), (O2C2, .arr [.str "B"])]))
    ∧ (findOneByOid (getColl stS3.db "person") pIdC2).map
        (fun d => getF (jfields d) "roles")
      = some (some (.obj [(O1C2, .arr [.str "A"]), (O2C2, .arr [.str "B"])])) := by
  refine ⟨?_, rfl, rfl, rfl⟩
  intro coll digId nr f1 hcoll hroles hprop
  exact normalizeFields_roles_entry coll digId nr f1 hcoll hroles hprop

/-- C2 witness: the duplicate-free invariant applied to a concrete payload
whose `person_role` field carries the duplicated list `["A", "A"]`. -/
theorem C2_roles_dedup_witness :
    ∃ l, rolesGetEntry
        (normalizeFields "person" O1C2 none [("person_role", .arr [.str "A", .str "A"])])
        O1C2 = some (.arr l)
      ∧ nodupBy svz l = true ∧ l.all jsTruthy = true :=
  C2_roles_dedup_and_accumulation.1 "person" O1C2 none
    [("person_role", .arr [.str "A", .str "A"])]
    (Or.inl rfl) (Or.inl rfl) (Or.inl ⟨.arr [.str "A", .str "A"], rfl, rfl⟩)

/-!
## C3 — update-vs-create in `addAndGetId`
-/

theorem roleStep_unfold (coll digId : String) (nr : Option JValue) (fs : Fields)
    (hc : (coll == "person" || coll == "institution") = true) :
    roleStep coll digId nr fs
      = handleRoleProp (getF fs "roles").isSome digId nr
          (handleRoleProp (getF fs "roles").isSome digId nr
            (rolesSetEntry
              (if (getF fs "roles").isSome then fs else setF fs "roles" (.obj []))
              digId
              (match rolesGetEntry
                  (if (getF fs "roles").isSome then fs else setF fs "roles" (.obj []))
                  digId with
               | some c => if jsTruthy c then c else .arr []
               | none => .arr []))
            "institution_role") "person_role" := by
  unfold roleStep
  rw [if_pos hc]

theorem getF_roleStep_ne (coll digId : String) (nr : Option JValue) (fs : Fields)
    (k : String) (h1 : k ≠ "roles") (h2 : k ≠ "institution_role")
    (h3 : k ≠ "person_role") :
    getF (roleStep coll digId nr fs) k = getF fs k := by
  by_cases hc : (coll == "person" || coll == "institution") = true
  · rw [roleStep_unfold coll digId nr fs hc,
      getF_handleRoleProp_ne _ digId nr _ "person_role" k h1 h3,
      getF_handleRoleProp_ne _ digId nr _ "institution_role" k h1 h2,
      getF_rolesSetEntry_ne _ digId _ k h1]
    by_cases hs : (getF fs "roles").isSome
    · rw [if_pos hs]
    · rw [if_neg hs, getF_setF_ne fs "roles" k _ h1]
  · unfold roleStep
    rw [if_neg hc]

theorem getF_normalizeFields_ne (coll digId : String) (nr : Option JValue)
    (f1 : Fields) (k : String) (hk1 : k ≠ "_id") (hk2 : k ≠ "roles")
    (hk3 : k ≠ "institution_role") (hk4 : k ≠ "person_role") :
    getF (normalizeFields coll digId nr f1) k = getF f1 k := by
  unfold normalizeFields
  rw [getF_delF_ne _ "_id" k hk1, getF_rolesFilterStep_ne _ digId k hk2,
    getF_roleStep_ne coll digId nr f1 k hk2 hk3 hk4]

theorem getF_normalizeFields_id (coll digId : String) (nr : Option JValue)
    (f1 : Fields) : getF (normalizeFields coll digId nr f1) "_id" = none := by
  unfold normalizeFields
  exact getF_delF_eq _ "_id"

theorem docIdOid_applySet (d : JValue) (fields : Fields)
    (hid : getF fields "_id" = none) : docIdOid (applySet d fields) = docIdOid d := by
  cases d with
  | obj fs =>
    show (match getF (mergeF fs fields) "_id" with
      | some (.oid s) => some s
      | _ => none)
      = (match getF fs "_id" with
      | some (.oid s) => some s
      | _ => none)
    rw [getF_mergeF fs fields "_id", hid]
    rfl
  | null => rfl
  | bool b => rfl
  | num n => rfl
  | str s => rfl
  | oid s => rfl
  | arr xs => rfl

theorem findOneByOid_cons_pos (d : JValue) (rest : List JValue) (i : String)
    (h : (docIdOid d == some i) = true) : findOneByOid (d :: rest) i = some d := by
  unfold findOneByOid List.find?
  rw [h]

theorem findOneByOid_cons_neg (d : JValue) (rest : List JValue) (i : String)
    (h : (docIdOid d == some i) = false) :
    findOneByOid (d :: rest) i = findOneByOid rest i := by
  unfold findOneByOid List.find?
  rw [h]
  cases rest <;> rfl

theorem updFirst_cons_pos (d : JValue) (rest : List JValue) (i : String)
    (fields : Fields) (h : (docIdOid d == some i) = true) :
    updFirst (d :: rest) i fields = applySet d fields :: rest := by
  unfold updFirst
  rw [if_pos h]

theorem updFirst_cons_neg (d : JValue) (rest : List JValue) (i : String)
    (fields : Fields) (h : (docIdOid d == some i) = false) :
    updFirst (d :: rest) i fields = d :: updFirst rest i fields := by
  unfold updFirst
  rw [if_neg (by simp [h])]
  cases rest <;> rfl

theorem findOneByOid_updFirst (docs : List JValue) (i : String) (fields : Fields)
    (d : JValue) (hf : findOneByOid docs i = some d)
    (hid : getF fields "_id" = none) :
    findOneByOid (updFirst docs i fields) i = some (applySet d fields) := by
  induction docs with
  | nil => simp [findOneByOid] at hf
  | cons d0 rest ih =>
    by_cases h0 : (docIdOid d0 == some i) = true
    · have hd : d = d0 := by
        rw [findOneByOid_cons_pos d0 rest i h0] at hf
        exact (Option.some.inj hf).symm
      subst hd
      rw [updFirst_cons_pos d rest i fields h0]
      exact findOneByOid_cons_pos _ rest i
        (by rw [docIdOid_applySet d fields hid]; exact h0)
    · have h0f : (docIdOid d0 == some i) = false := by simpa using h0
      have hf2 : findOneByOid rest i = some d := by
        rw [findOneByOid_cons_neg d0 rest i h0f] at hf
        exact hf
      rw [updFirst_cons_neg d0 rest i fields h0f,
        findOneByOid_cons_neg d0 (updFirst rest i fields) i h0f]
      exact ih hf2

theorem findOneByOid_append_right (a b : List JValue) (i : String)
    (ha : findOneByOid a i = none) :
    findOneByOid (a ++ b) i = findOneByOid b i := by
  induction a with
  | nil => rfl
  | cons d rest ih =>
    by_cases hdd : (docIdOid d == some i) = true
    · rw [findOneByOid_cons_pos d rest i hdd] at ha
      exact absurd ha (by simp)
    · have hddf : (docIdOid d == some i) = false := by simpa using hdd
      have ha2 : findOneByOid rest i = none := by
        rw [findOneByOid_cons_neg d rest i hddf] at ha
        exact ha
      rw [show ((d :: rest) ++ b) = d :: (rest ++ b) from rfl,
        findOneByOid_cons_neg d (rest ++ b) i hddf]
      exact ih ha2

theorem findOneByOid_some_pred (docs : List JValue) (i : String) (d : JValue)
    (h : findOneByOid docs i = some d) : docIdOid d = some i := by
  induction docs with
  | nil => simp [findOneByOid] at h
  | cons d0 rest ih =>
    by_cases h0 : (docIdOid d0 == some i) = true
    · rw [findOneByOid_cons_pos d0 rest i h0] at h
      have hd : d0 = d := Option.some.inj h
      subst hd
      simpa using h0
    · rw [findOneByOid_cons_neg d0 rest i (by simpa using h0)] at h
      exact ih h

theorem getColl_setColl_eq (db : DB) (c : String) (docs : List JValue) :
    getColl (setColl db c docs) c = docs := by
  unfold getColl setColl
  rw [aget_aset_eq]
  rfl

theorem docIdOid_some_obj (d : JValue) (i : String) (h : docIdOid d = some i) :
    ∃ fs, d = .obj fs := by
  cases d with
  | obj fs => exact ⟨fs, rfl⟩
  | null => simp [docIdOid, getFJ] at h
  | bool b => simp [docIdOid, getFJ] at h
  | num n => simp [docIdOid, getFJ] at h
  | str s => simp [docIdOid, getFJ] at h
  | oid s => simp [docIdOid, getFJ] at h
  | arr xs => simp [docIdOid, getFJ] at h

theorem addAndGetIdCore_valid_found (st : St) (payload : JValue) (coll : String)
    (nr : Option JValue) (cphy rid : String) (idv old : JValue)
    (hid : getFJ payload "_id" = some idv) (hval : oidIsValidJ (some idv) = true)
    (hfind : findOneByOid (getColl st.db coll) (canonId idv) = some old) :
    addAndGetIdCore st payload coll nr cphy rid
      = (mkRef (canonId idv),
         { db := setColl st.db coll
             (updFirst (getColl st.db coll) (canonId idv)
               (normalizeFields coll (digIdOf cphy rid) nr
                 (mergeF (jfields old) (jfields payload)))),
           supply := st.supply }) := by
  unfold addAndGetIdCore
  rw [hid]
  simp only [hval, Option.getD_some, if_true]
  rw [hfind]
  simp [mkRef]

theorem addAndGetIdCore_invalid (st : St) (payload : JValue) (coll : String)
    (nr : Option JValue) (cphy rid : String) (fresh : String) (rest : List String)
    (hinv : oidIsValidJ (getFJ payload "_id") = false)
    (hsup : st.supply = fresh :: rest)
    (hnf : findOneByOid (getColl st.db coll) fresh = none) :
    addAndGetIdCore st payload coll nr cphy rid
      = (mkRef fresh,
         { db := setColl st.db coll
             (getColl st.db coll ++
               [.obj (mergeF [("_id", .oid fresh)]
                 (normalizeFields coll (digIdOf cphy rid) nr (jfields payload)))]),
           supply := rest }) := by
  have hpop : popFresh st = (fresh, { db := st.db, supply := rest }) := by
    unfold popFresh
    rw [hsup]
  unfold addAndGetIdCore
  simp only [hinv, Bool.false_eq_true, if_false, hpop]
  rw [show ({ db := st.db, supply := rest } : St).db = st.db from rfl]
  rw [hnf]
  simp [mkRef]

/-- C3: for every payload reaching `addAndGetId` (with no nested-institution
sentinel to substitute), a structurally valid existing identifier makes the
normalizer load the stored entity, shallow-merge the payload over it
(incoming fields win, shown for every field outside the role-managed keys),
and return a reference carrying that same identifier; a payload whose
identifier is missing or invalid creates a new entity under the freshly
minted identifier and returns it. -/
theorem C3_addAndGetId_update_or_create
    (st : St) (payload : JValue) (coll : String) (nr : Option JValue)
    (cphy rid k : String)
    (hnest : coll = "person" → addNestedInstitution st payload cphy rid = (payload, st))
    (hk1 : k ≠ "_id") (hk2 : k ≠ "roles") (hk3 : k ≠ "institution_role")
    (hk4 : k ≠ "person_role") :
    (∀ idv old, getFJ payload "_id" = some idv → oidIsValidJ (some idv) = true →
      findOneByOid (getColl st.db coll) (canonId idv) = some old →
      (addAndGetId st payload coll nr cphy rid).1 = mkRef (canonId idv)
      ∧ (findOneByOid (getColl (addAndGetId st payload coll nr cphy rid).2.db coll)
            (canonId idv)).map (fun d => getF (jfields d) k)
        = some ((getF (jfields payload) k).orElse (fun _ => getF (jfields old) k)))
    ∧ (oidIsValidJ (getFJ payload "_id") = false →
      ∀ fresh rest2, st.supply = fresh :: rest2 →
      findOneByOid (getColl st.db coll) fresh = none →
      (addAndGetId st payload coll nr cphy rid).1 = mkRef fresh
      ∧ (findOneByOid (getColl (addAndGetId st payload coll nr cphy rid).2.db coll)
            fresh).map (fun d => getF (jfields d) k)
        = some (getF (jfields payload) k)) := by
  have hwrap : addAndGetId st payload coll nr cphy rid
      = addAndGetIdCore st payload coll nr cphy rid := by
    unfold addAndGetId
    by_cases hc : coll = "person"
    · rw [if_pos (by simpa using hc), hnest hc]
    · rw [if_neg (by simpa using hc)]
  constructor
  · intro idv old hid hval hfind
    have hpredeq : docIdOid old = some (canonId idv) :=
      findOneByOid_some_pred _ _ _ hfind
    rcases docIdOid_some_obj old (canonId idv) hpredeq with ⟨ofs, rfl⟩
    rw [hwrap,
      addAndGetIdCore_valid_found st payload coll nr cphy rid idv (.obj ofs) hid hval hfind]
    refine ⟨rfl, ?_⟩
    show (findOneByOid
        (getColl (setColl st.db coll
          (updFirst (getColl st.db coll) (canonId idv)
            (normalizeFields coll (digIdOf cphy rid) nr
              (mergeF (jfields (.obj ofs)) (jfields payload))))) coll)
        (canonId idv)).map (fun d => getF (jfields d) k)
      = some ((getF (jfields payload) k).orElse (fun _ => getF (jfields (.obj ofs)) k))
    rw [getColl_setColl_eq,
      findOneByOid_updFirst _ _ _ _ hfind (getF_normalizeFields_id _ _ _ _)]
    show some (getF (mergeF ofs
        (normalizeFields coll (digIdOf cphy rid) nr
          (mergeF ofs (jfields payload)))) k)
      = some ((getF (jfields payload) k).orElse (fun _ => getF ofs k))
    rw [getF_mergeF, getF_normalizeFields_ne _ _ _ _ k hk1 hk2 hk3 hk4, getF_mergeF]
    cases getF (jfields payload) k with
    | some v => rfl
    | none => cases getF ofs k <;> rfl
  · intro hinv fresh rest2 hsup hnf
    rw [hwrap,
      addAndGetIdCore_invalid st payload coll nr cphy rid fresh rest2 hinv hsup hnf]
    refine ⟨rfl, ?_⟩
    show (findOneByOid
        (getColl (setColl st.db coll
          (getColl st.db coll ++
            [.obj (mergeF [("_id", .oid fresh)]
              (normalizeFields coll (digIdOf cphy rid) nr (jfields payload)))])) coll)
        fresh).map (fun d => getF (jfields d) k)
      = some (getF (jfields payload) k)
    rw [getColl_setColl_eq, findOneByOid_append_right _ _ _ hnf]
    have hdoc : docIdOid (.obj (mergeF [("_id", .oid fresh)]
        (normalizeFields coll (digIdOf cphy rid) nr (jfields payload)))) = some fresh := by
      show (match getF (mergeF [("_id", .oid fresh)]
          (normalizeFields coll (digIdOf cphy rid) nr (jfields payload))) "_id" with
        | some (.oid s) => some s
        | _ => none) = some fresh
      rw [getF_mergeF, getF_normalizeFields_id]
      rfl
    rw [findOneByOid_cons_pos _ [] fresh (by simp [hdoc])]
    show some (getF (mergeF [("_id", .oid fresh)]
        (normalizeFields coll (digIdOf cphy rid) nr (jfields payload))) k)
      = some (getF (jfields payload) k)
    rw [getF_mergeF, getF_normalizeFields_ne _ _ _ _ k hk1 hk2 hk3 hk4]
    have hsingle : getF [("_id", JValue.oid fresh)] k = none := by
      simp [getF, show ("_id" == k) = false by
        simpa using fun hh : "_id" = k => hk1 hh.symm]
    rw [hsingle]
    cases getF (jfields payload) k <;> rfl

/-- C3 witness: the update path applied to the stored person `oldC3` (the
payload's `prename` wins, the untouched `surname` is preserved), and the
create path applied to a fresh payload. -/
theorem C3_addAndGetId_witness :
    ((addAndGetId stC3 payloadC3 "person" none "" O1C2).1 = mkRef pidC3
      ∧ (findOneByOid (getColl (addAndGetId stC3 payloadC3 "person" none "" O1C2).2.db
            "person") pidC3).map (fun d => getF (jfields d) "prename")
        = some ((getF (jfields payloadC3) "prename").orElse
            (fun _ => getF (jfields oldC3) "prename")))
    ∧ ((addAndGetId stC3 (.obj [("prename", .str "X")]) "person" none "" O1C2).1
        = mkRef "99999999999999999999999a"
      ∧ (findOneByOid (getColl
            (addAndGetId stC3 (.obj [("prename", .str "X")]) "person" none "" O1C2).2.db
            "person") "99999999999999999999999a").map
          (fun d => getF (jfields d) "prename")
        = some (getF (jfields (.obj [("prename", .str "X")])) "prename")) := by
  constructor
  · exact (C3_addAndGetId_update_or_create stC3 payloadC3 "person" none "" O1C2 "prename"
      (fun _ => rfl) (by decide) (by decide) (by decide) (by decide)).1
      (.str pidC3) oldC3 rfl (by decide) rfl
  · exact (C3_addAndGetId_update_or_create stC3 (.obj [("prename", .str "X")]) "person"
      none "" O1C2 "prename"
      (fun _ => rfl) (by decide) (by decide) (by decide) (by decide)).2
      rfl "99999999999999999999999a" [] rfl rfl

/-!
## C10 — fetch-all on the compilation collection
-/

/-- C10: under the data-model assumptions that every stored compilation
resolves to a compilation-shaped document (`isCompilation`) and that
password fields are strings or absent, the fetch-all read returns only
resolutions of stored documents (no redacted markers) and omits every
password-protected compilation entirely: each returned object has an absent
or empty password. -/
theorem C10_fetch_all_hides_protected (db : DB)
    (hshape : ∀ d ∈ getColl db "compilation",
      ∀ r, resolve db d "compilation" none = some r → isCompilationJ r = true)
    (hpw : ∀ d ∈ getColl db "compilation",
      ∀ r, resolve db d "compilation" none = some r →
        getFJ r "password" = none ∨ ∃ s, getFJ r "password" = some (.str s)) :
    (∀ o ∈ getAllObjectsFromCollection db "compilation",
        passwordAbsentOrEmpty o = true)
    ∧ (∀ o ∈ getAllObjectsFromCollection db "compilation",
        ∃ d ∈ getColl db "compilation",
          resolve db d "compilation" none = some o) := by
  have hmemres : ∀ o, o ∈ (((getColl db "compilation").map
        (fun d => resolve db d "compilation" none)).filterMap id).filter jsTruthy →
      ∃ d ∈ getColl db "compilation", resolve db d "compilation" none = some o := by
    intro o ho
    have ho2 := (List.mem_filter.mp ho).1
    rcases List.mem_filterMap.mp ho2 with ⟨a, ha, hae⟩
    rcases List.mem_map.mp ha with ⟨d, hd, hda⟩
    refine ⟨d, hd, ?_⟩
    rw [hda]
    exact hae
  have key : ∀ o, o ∈ getAllObjectsFromCollection db "compilation" →
      o ∈ (((getColl db "compilation").map
          (fun d => resolve db d "compilation" none)).filterMap id).filter jsTruthy
      ∧ passwordFreeJS o = true := by
    intro o ho
    cases hres : (((getColl db "compilation").map
        (fun d => resolve db d "compilation" none)).filterMap id).filter jsTruthy with
    | nil =>
      have hga : getAllObjectsFromCollection db "compilation" = [] := by
        show (match (((getColl db "compilation").map
            (fun d => resolve db d "compilation" none)).filterMap id).filter jsTruthy with
          | [] => (((getColl db "compilation").map
              (fun d => resolve db d "compilation" none)).filterMap id).filter jsTruthy
          | r0 :: _ => if isCompilationJ r0
              then ((((getColl db "compilation").map
                (fun d => resolve db d "compilation" none)).filterMap id).filter
                  jsTruthy).filter passwordFreeJS
              else (((getColl db "compilation").map
                (fun d => resolve db d "compilation" none)).filterMap id).filter jsTruthy)
          = []
        rw [hres]
      rw [hga] at ho
      simp at ho
    | cons r0 rest =>
      have hr0mem : r0 ∈ (((getColl db "compilation").map
          (fun d => resolve db d "compilation" none)).filterMap id).filter jsTruthy := by
        rw [hres]
        exact List.mem_cons_self r0 rest
      rcases hmemres r0 hr0mem with ⟨d0, hd0, hres0⟩
      have hcomp := hshape d0 hd0 r0 hres0
      have hga : getAllObjectsFromCollection db "compilation"
          = (r0 :: rest).filter passwordFreeJS := by
        show (match (((getColl db "compilation").map
            (fun d => resolve db d "compilation" none)).filterMap id).filter jsTruthy with
          | [] => (((getColl db "compilation").map
              (fun d => resolve db d "compilation" none)).filterMap id).filter jsTruthy
          | r0 :: _ => if isCompilationJ r0
              then ((((getColl db "compilation").map
                (fun d => resolve db d "compilation" none)).filterMap id).filter
                  jsTruthy).filter passwordFreeJS
              else (((getColl db "compilation").map
                (fun d => resolve db d "compilation" none)).filterMap id).filter jsTruthy)
          = (r0 :: rest).filter passwordFreeJS
        rw [hres]
        show (if isCompilationJ r0 = true
            then (r0 :: rest).filter passwordFreeJS
            else r0 :: rest)
          = (r0 :: rest).filter passwordFreeJS
        rw [if_pos hcomp]
      rw [hga] at ho
      have hmf := List.mem_filter.mp ho
      exact hmf
  constructor
  · intro o ho
    rcases key o ho with ⟨hmem, hpwfree⟩
    rcases hmemres o hmem with ⟨d, hd, hr⟩
    rcases hpw d hd o hr with hnone | ⟨s, hs⟩
    · unfold passwordAbsentOrEmpty
      rw [hnone]
    · by_cases hse : s = ""
      · unfold passwordAbsentOrEmpty
        rw [hs, hse]
        rfl
      · exfalso
        unfold passwordFreeJS at hpwfree
        rw [hs] at hpwfree
        have hpw2 : (!(s != "") || ((s != "") && (s.length == 0))) = true := hpwfree
        simp [hse] at hpw2
        have := string_ne_empty_length_pos s hse
        omega
  · intro o ho
    exact hmemres o (key o ho).1

/-- C10 witness: the store `dbC10` holding one open and one
password-protected compilation. -/
theorem C10_fetch_all_witness :
    (∀ o ∈ getAllObjectsFromCollection dbC10 "compilation",
        passwordAbsentOrEmpty o = true)
    ∧ (∀ o ∈ getAllObjectsFromCollection dbC10 "compilation",
        ∃ d ∈ getColl dbC10 "compilation",
          resolve dbC10 d "compilation" none = some o) := by
  refine C10_fetch_all_hides_protected dbC10 ?_ ?_
  · intro d hd r hr
    have hd2 : d = compOpen ∨ d = compProt := by
      simpa [getColl, aget, dbC10] using hd
    rcases hd2 with rfl | rfl
    · have hmapped : (resolve dbC10 compOpen "compilation" none).map isCompilationJ
          = some true := rfl
      rw [hr] at hmapped
      simpa using hmapped
    · have hmapped : (resolve dbC10 compProt "compilation" none).map isCompilationJ
          = some true := rfl
      rw [hr] at hmapped
      simpa using hmapped
  · intro d hd r hr
    have hd2 : d = compOpen ∨ d = compProt := by
      simpa [getColl, aget, dbC10] using hd
    rcases hd2 with rfl | rfl
    · have hmapped : (resolve dbC10 compOpen "compilation" none).map
          (fun r => getFJ r "password") = some none := rfl
      rw [hr] at hmapped
      exact Or.inl (by simpa using hmapped)
    · have hmapped : (resolve dbC10 compProt "compilation" none).map
          (fun r => getFJ r "password") = some (some (.str "x")) := rfl
      rw [hr] at hmapped
      exact Or.inr ⟨"x", by simpa using hmapped⟩
